import Mathlib

/-! # Exchange Autodiscover client: model and verified properties

A shallow embedding of `autodiscover.go` (package `autodiscover`).

* Go strings and byte slices are byte sequences (`GoString`).
* A Go function returning `(value, error)` returns a pair whose second
  component is `none` for `nil`.
* A run-time panic (index or slice out of range) is the outcome `none` of an
  `Option`.
* The library functions the source calls (`strconv.ParseUint`,
  `strconv.ParseInt`, `fmt.Sprintf`, `slices.IndexFunc`, `strings.Split`,
  `base64.StdEncoding.EncodeToString`, `utf8.DecodeRuneInString` and the text
  escaping of `xml.Marshal`) are embedded from their Go definitions.
* The XML decoder (`xml.Unmarshal`), `http.NewRequest` and the HTTP transport
  are collaborators: they enter as parameters. The `http.Client` the source
  builds on the transport, with its default redirect policy, is embedded
  (`clientDo`), and every request passed to `httpClient.Do` is recorded in
  order.

The definitions come first (the program, then the reference notions the
statements use), the theorems after them.
-/

namespace Autodiscover

/-! ## Go values -/

/-- A Go `string` (equally a `[]byte`): a finite sequence of bytes. -/
abbrev GoString := List UInt8

/-- The bytes of a string literal of the source text. -/
def str (s : String) : GoString := s.toUTF8.data.toList

/-- Go `error` values that occur in the package. -/
inductive GoError where
  /-- `&strconv.NumError{Func: fn, Num: num, Err: strconv.ErrSyntax}` -/
  | syntaxError (fn : String) (num : GoString)
  /-- `&strconv.NumError{Func: fn, Num: num, Err: strconv.ErrRange}` -/
  | rangeError (fn : String) (num : GoString)
  /-- `errors.New(text)` -/
  | errorsNew (text : String)
  /-- An error value produced by a collaborator outside the package
  (XML decoding, the HTTP client and transport, reading a response body). -/
  | external (code : Nat)
  deriving DecidableEq, Repr

/-! ## `strconv` -/

/-- `strconv.lower`: `c | ('x' - 'X')`. -/
def lower (c : Nat) : Nat := c ||| 0x20

/-- The largest `uint64`. -/
def maxUint64 : Nat := 2 ^ 64 - 1

/-- The `switch` on the byte `c` in the loop of `strconv.ParseUint`: the value
of `c` as a digit or letter, `none` in the `default` case (base 0 aside, which
alone admits `'_'`). -/
def digitValue (c : Nat) : Option Nat :=
  if 48 ≤ c ∧ c ≤ 57 then some (c - 48)
  else if 97 ≤ lower c ∧ lower c ≤ 122 then some (lower c - 97 + 10)
  else none

/-- The digit loop of `strconv.ParseUint` for an explicit base (`2 ≤ base ≤ 36`),
over the remaining bytes with accumulator `n`; `s0` is the whole input, kept
for the error value. -/
def parseUintLoop (s0 : GoString) (base cutoff maxVal : Nat) :
    List UInt8 → Nat → Nat × Option GoError
  | [], n => (n, none)
  | b :: rest, n =>
    match digitValue b.toNat with
    | none => (0, some (.syntaxError "ParseUint" s0))
    | some d =>
      if d ≥ base then (0, some (.syntaxError "ParseUint" s0))
      else if n ≥ cutoff then (maxVal, some (.rangeError "ParseUint" s0))
      else
        let m := (n * base) % 2 ^ 64
        let n1 := (m + d) % 2 ^ 64
        if n1 < m ∨ n1 > maxVal then (maxVal, some (.rangeError "ParseUint" s0))
        else parseUintLoop s0 base cutoff maxVal rest n1

/-- `strconv.ParseUint(s, base, bitSize)` for `2 ≤ base ≤ 36` and
`1 ≤ bitSize ≤ 64` (the source calls it with base 16 or 2 and bitSize 32). -/
def ParseUint (s : GoString) (base bitSize : Nat) : Nat × Option GoError :=
  if s = [] then (0, some (.syntaxError "ParseUint" s))
  else parseUintLoop s base (maxUint64 / base + 1) (2 ^ bitSize - 1) s 0

/-- `strconv.ParseInt(s, base, bitSize)` under the same restriction on `base`
and `bitSize`. -/
def ParseInt (s : GoString) (base bitSize : Nat) : Int × Option GoError :=
  match s with
  | [] => (0, some (.syntaxError "ParseInt" s))
  | c0 :: tl =>
    let neg : Bool := c0 = 45
    let digits := if c0 = 43 ∨ c0 = 45 then tl else s
    match ParseUint digits base bitSize with
    | (_, some (.syntaxError _ _)) => (0, some (.syntaxError "ParseInt" s))
    | (un, _) =>
      let cutoff : Nat := 2 ^ (bitSize - 1)
      if !neg ∧ un ≥ cutoff then ((cutoff : Int) - 1, some (.rangeError "ParseInt" s))
      else if neg ∧ un > cutoff then (-(cutoff : Int), some (.rangeError "ParseInt" s))
      else (if neg then -(un : Int) else (un : Int), none)

/-! ## `fmt.Sprintf("%032b", i)` -/

/-- The digit loop of `fmt.fmtInteger` in base 2: digits are written from the
least significant one, in front of `buf`, while `u ≥ 2`; then the last digit.
`fuel` bounds the iterations (64 suffice for a `uint64`). -/
def fmtBits : Nat → Nat → GoString → GoString
  | 0, u, buf => UInt8.ofNat (48 + u % 2) :: buf
  | fuel + 1, u, buf =>
    if u ≥ 2 then fmtBits fuel (u / 2) (UInt8.ofNat (48 + u % 2) :: buf)
    else UInt8.ofNat (48 + u) :: buf

/-- `fmt.Sprintf("%032b", i)` for a `uint64`: the binary digits of `i`,
padded on the left with `'0'` up to width 32. -/
def sprintf032b (i : Nat) : GoString :=
  let ds := fmtBits 64 i []
  List.replicate (32 - ds.length) 48 ++ ds

/-- The slice expression `s[lo:hi]` on a string; `none` is the run-time panic
for bounds out of range. -/
def slice (s : GoString) (lo hi : Nat) : Option GoString :=
  if lo ≤ hi ∧ hi ≤ s.length then some ((s.drop lo).take (hi - lo)) else none

/-! ## `exchangeVersion` -/

/-- The `switch major` statement of `exchangeVersion` (with its nested
`switch minor`): the returned label and error. -/
def versionSwitch (major minor build : Int) : GoString × Option GoError :=
  if major = 8 then
    if minor = 0 then (str "Exchange2007", none)
    else if minor = 1 then (str "Exchange2007_SP1", none)
    else if minor = 2 then (str "Exchange2007_SP1", none)
    else if minor = 3 then (str "Exchange2007_SP1", none)
    else (str "", some (.errorsNew "unknown minor version"))
  else if major = 14 then
    if minor = 0 then (str "Exchange2010", none)
    else if minor = 1 then (str "Exchange2010_SP1", none)
    else if minor = 2 then (str "Exchange2010_SP2", none)
    else if minor = 3 then (str "Exchange2010_SP2", none)
    else (str "", some (.errorsNew "unknown minor version"))
  else if major = 15 then
    if minor = 0 then
      if build ≥ 847 then (str "Exchange2013_SP1", none)
      else (str "Exchange2013", none)
    else if minor = 1 then (str "Exchange2016", none)
    else if minor = 2 then (str "Exchange2019", none)
    else if minor = 20 then (str "Exchange2016", none)
    else (str "", some (.errorsNew "unknown minor version"))
  else (str "", some (.errorsNew "unknown major version"))

/-- `exchangeVersion(rawHex)`: the generation label and the error;
`none` is a panic. -/
def exchangeVersion (rawHex : GoString) : Option (GoString × Option GoError) :=
  match ParseUint rawHex 16 32 with
  | (_, some err) => some (str "", some err)
  | (i, none) => do
    let binString := sprintf032b i
    let major := (ParseInt (← slice binString 4 10) 2 32).1
    let minor := (ParseInt (← slice binString 10 16) 2 32).1
    let build := (ParseInt (← slice binString 17 32) 2 32).1
    some (versionSwitch major minor build)

/-! ## Reference notions used to state the properties of `exchangeVersion` -/

/-- The byte `'0'` or `'1'` for the lowest bit of `b`. -/
def bitChar (b : Nat) : UInt8 := UInt8.ofNat (48 + b % 2)

/-- The `w` lowest bits of `n` as `'0'`/`'1'` bytes, most significant first. -/
def bitsW : Nat → Nat → GoString
  | 0, _ => []
  | w + 1, n => bitChar (n / 2 ^ w) :: bitsW w n

/-- The value of a hexadecimal digit with character code `c` (`0`-`9`, `a`-`f`,
`A`-`F`); `none` for every other code. -/
def hexDigitCode (c : Nat) : Option Nat :=
  if 48 ≤ c ∧ c ≤ 57 then some (c - 48)
  else if 97 ≤ c ∧ c ≤ 102 then some (c - 87)
  else if 65 ≤ c ∧ c ≤ 70 then some (c - 55)
  else none

/-- The value of a hexadecimal digit byte; `none` for every other byte. -/
def hexDigit (b : UInt8) : Option Nat := hexDigitCode b.toNat

/-- The number a sequence of hexadecimal digits denotes, continuing from
`acc` (a byte that is no digit counts as 0). -/
def hexValueFrom (acc : Nat) (s : GoString) : Nat :=
  s.foldl (fun a b => 16 * a + (hexDigit b).getD 0) acc

/-- The number a hexadecimal numeral denotes. -/
def hexValue (s : GoString) : Nat := hexValueFrom 0 s

/-- Every byte of the token is a hexadecimal digit. -/
def allHex (s : GoString) : Prop := ∀ b ∈ s, (hexDigit b).isSome

instance (s : GoString) : Decidable (allHex s) := by unfold allHex; infer_instance

/-- Bit `k` of the 32-bit rendering of `n`, position 0 being the most
significant bit. -/
def bitAt (n k : Nat) : Nat := n / 2 ^ (31 - k) % 2

/-- The bits at positions `lo ≤ k < hi` of the 32-bit rendering of `n`, read as
a binary integer. -/
def bitField (n lo hi : Nat) : Nat :=
  ((List.range (hi - lo)).map fun j => bitAt n (lo + j)).foldl (fun acc b => 2 * acc + b) 0

/-- The (major, minor) pairs that have an entry in the mapping table. -/
def listed (major minor : Nat) : Prop :=
  ((major = 8 ∨ major = 14) ∧ (minor = 0 ∨ minor = 1 ∨ minor = 2 ∨ minor = 3)) ∨
  (major = 15 ∧ (minor = 0 ∨ minor = 1 ∨ minor = 2 ∨ minor = 20))

instance (major minor : Nat) : Decidable (listed major minor) := by
  unfold listed; infer_instance

/-! ## The response document and `parseResponse` -/

/-- The struct `DiscoveredInfo`. -/
structure DiscoveredInfo where
  EWSUrl : GoString
  ExchangeVersion : GoString
  deriving DecidableEq, Repr

/-- The zero value `DiscoveredInfo{}`. -/
def DiscoveredInfo.zero : DiscoveredInfo := ⟨str "", str ""⟩

/-- The struct `AutoDiscoveryProtocol` (the field `Type` is spelled `Type_`;
`XMLName` only steers the XML decoder and is left out). -/
structure AutoDiscoveryProtocol where
  Type_ : GoString
  ServerVersion : GoString
  EwsUrl : GoString
  deriving DecidableEq, Repr

/-- The struct `AutoDiscoveryResponse` (without `XMLName`). -/
structure AutoDiscoveryResponse where
  Protocols : List AutoDiscoveryProtocol
  deriving DecidableEq, Repr

/-- The loop of `slices.IndexFunc`, at position `i` of the slice. -/
def indexFuncFrom {α : Type} (f : α → Bool) : List α → Nat → Int
  | [], _ => -1
  | x :: rest, i => if f x then (i : Int) else indexFuncFrom f rest (i + 1)

/-- `slices.IndexFunc(s, f)`: the first index whose element satisfies `f`,
or -1. -/
def IndexFunc {α : Type} (s : List α) (f : α → Bool) : Int := indexFuncFrom f s 0

/-- The index expression `s[i]` on a slice; `none` is the run-time panic for an
index out of range. -/
def index {α : Type} (s : List α) (i : Int) : Option α :=
  if 0 ≤ i then s[i.toNat]? else none

/-- The result of `xml.Unmarshal(body, &response)` as a function of `body`: the
decoded document, or the decoder's error. The XML decoder is a collaborator
of the package. -/
abbrev Unmarshal := GoString → Except GoError AutoDiscoveryResponse

/-- The last statements of `parseResponse`: decode the version token and build
the result. -/
def parseResponseTail (ewsUrl rawVersion : GoString) :
    Option (DiscoveredInfo × Option GoError) :=
  match exchangeVersion rawVersion with
  | none => none
  | some (_, some err) => some (DiscoveredInfo.zero, some err)
  | some (exchangeVersion, none) =>
    some ({ EWSUrl := ewsUrl, ExchangeVersion := exchangeVersion }, none)

/-- `parseResponse(body)`, with the XML decoder as a parameter; `none` is a
panic. -/
def parseResponse (unmarshal : Unmarshal) (body : GoString) :
    Option (DiscoveredInfo × Option GoError) :=
  match unmarshal body with
  | .error err => some (DiscoveredInfo.zero, some err)
  | .ok response =>
    let protocols := response.Protocols
    let exchangeProtocolIndex := IndexFunc protocols fun p => p.Type_ == str "EXCH"
    if exchangeProtocolIndex < 0 then
      some (DiscoveredInfo.zero,
        some (.errorsNew "failed to find Exchange protocol in response"))
    else
      match index protocols exchangeProtocolIndex with
      | none => none
      | some exchangeProtocol =>
        let ewsUrl := exchangeProtocol.EwsUrl
        let rawVersion := exchangeProtocol.ServerVersion
        if ewsUrl = str "" then
          let expressProtocolIndex := IndexFunc protocols fun p => p.Type_ == str "EXPR"
          if expressProtocolIndex < 0 then
            some (DiscoveredInfo.zero,
              some (.errorsNew "failed to find Express protocol in response"))
          else
            match index protocols expressProtocolIndex with
            | none => none
            | some expressProtocol => parseResponseTail expressProtocol.EwsUrl rawVersion
        else parseResponseTail ewsUrl rawVersion

/-- The `Protocol` records of the response document of `TestParseResponse`:
the `EXCH` record carries the version token and no `EwsUrl` element, the
`EXPR` record carries the `EwsUrl` and no `ServerVersion` element. -/
def testDocumentProtocols : List AutoDiscoveryProtocol :=
  [ { Type_ := str "EXCH", ServerVersion := str "73C1840A", EwsUrl := str "" },
    { Type_ := str "EXPR", ServerVersion := str "",
      EwsUrl := str "https://outlook.msxfaq.net/EWS/Exchange.asmx" } ]

/-- The first record of a list whose `Type` is exactly `t`. -/
def firstOfType (t : String) (protocols : List AutoDiscoveryProtocol) :
    Option AutoDiscoveryProtocol :=
  protocols.find? fun p => p.Type_ == str t

/-! ## `unicode/utf8` and the text escaping of `encoding/xml` -/

/-- `utf8.RuneError`, U+FFFD. -/
def RuneError : Nat := 0xFFFD

/-- The table `utf8.first`: information about the first byte of a UTF-8
sequence (`0xF0` ASCII, `0xF1` invalid, otherwise size in the low bits and
the index into `acceptRanges` in the high nibble). -/
def utf8First (b : Nat) : Nat :=
  if b < 0x80 then 0xF0
  else if b < 0xC2 then 0xF1
  else if b < 0xE0 then 0x02
  else if b = 0xE0 then 0x13
  else if b < 0xED then 0x03
  else if b = 0xED then 0x23
  else if b < 0xF0 then 0x03
  else if b = 0xF0 then 0x34
  else if b < 0xF4 then 0x04
  else if b = 0xF4 then 0x44
  else 0xF1

/-- The table `utf8.acceptRanges`: the admissible range `(lo, hi)` of the
second byte. -/
def acceptRanges (i : Nat) : Nat × Nat :=
  match i with
  | 0 => (0x80, 0xBF)
  | 1 => (0xA0, 0xBF)
  | 2 => (0x80, 0x9F)
  | 3 => (0x90, 0xBF)
  | 4 => (0x80, 0x8F)
  | _ => (0, 0)

/-- `utf8.DecodeRuneInString(s)`: the first rune of `s` and its width in
bytes; `(RuneError, 1)` for an invalid encoding, `(RuneError, 0)` for the
empty string. -/
def DecodeRuneInString (s : GoString) : Nat × Nat :=
  match s with
  | [] => (RuneError, 0)
  | b0 :: _ =>
    let s0 := b0.toNat
    let x := utf8First s0
    if x ≥ 0xF0 then
      -- `mask` is all ones exactly when the lowest bit of `x` is set
      if x % 2 = 1 then (RuneError, 1) else (s0, 1)
    else
      let sz := x &&& 7
      let accept := acceptRanges (x >>> 4)
      if s.length < sz then (RuneError, 1)
      else
        let s1 := (s.getD 1 0).toNat
        if s1 < accept.1 ∨ accept.2 < s1 then (RuneError, 1)
        else if sz ≤ 2 then (((s0 &&& 0x1F) <<< 6) ||| (s1 &&& 0x3F), 2)
        else
          let s2 := (s.getD 2 0).toNat
          if s2 < 0x80 ∨ 0xBF < s2 then (RuneError, 1)
          else if sz ≤ 3 then
            (((s0 &&& 0x0F) <<< 12) ||| ((s1 &&& 0x3F) <<< 6) ||| (s2 &&& 0x3F), 3)
          else
            let s3 := (s.getD 3 0).toNat
            if s3 < 0x80 ∨ 0xBF < s3 then (RuneError, 1)
            else
              (((s0 &&& 0x07) <<< 18) ||| ((s1 &&& 0x3F) <<< 12) ||| ((s2 &&& 0x3F) <<< 6)
                ||| (s3 &&& 0x3F), 4)

/-- `xml.isInCharacterRange(r)`: the `Char` production of the XML
specification. -/
def isInCharacterRange (r : Nat) : Bool :=
  r == 0x09 || r == 0x0A || r == 0x0D ||
  (r ≥ 0x20 && r ≤ 0xD7FF) ||
  (r ≥ 0xE000 && r ≤ 0xFFFD) ||
  (r ≥ 0x10000 && r ≤ 0x10FFFF)

/-- The `switch r` of `(*printer).EscapeString`: the replacement written for
the rune, `none` when the rune is copied unchanged. -/
def escapeOf (r width : Nat) : Option GoString :=
  if r = 34 then some (str "&#34;")
  else if r = 39 then some (str "&#39;")
  else if r = 38 then some (str "&amp;")
  else if r = 60 then some (str "&lt;")
  else if r = 62 then some (str "&gt;")
  else if r = 9 then some (str "&#x9;")
  else if r = 10 then some (str "&#xA;")
  else if r = 13 then some (str "&#xD;")
  else if !isInCharacterRange r ∨ (r = 0xFFFD ∧ width = 1) then some (str "\uFFFD")
  else none

/-- The loop of `(*printer).EscapeString` over the remaining bytes: what it
writes, rune by rune. Every iteration consumes at least one byte; `fuel`
bounds the iterations. -/
def escapeLoop : Nat → GoString → GoString
  | 0, _ => []
  | fuel + 1, s =>
    if s = [] then []
    else
      let (r, width) := DecodeRuneInString s
      (match escapeOf r width with
        | some esc => esc
        | none => s.take width) ++ escapeLoop fuel (s.drop width)

/-- `(*printer).EscapeString(s)`: the escaped XML text for `s`. -/
def EscapeString (s : GoString) : GoString := escapeLoop s.length s

/-! ## `requestBody` -/

/-- The struct `AutoDiscoveryRequest` (without `XMLName`, whose tag fixes the
root element and its namespace). -/
structure AutoDiscoveryRequest where
  EMailAddress : GoString
  AcceptableResponseSchema : GoString
  deriving DecidableEq, Repr

/-- `xml.Marshal(&r)` for an `AutoDiscoveryRequest`: the root element
`Autodiscover` with its namespace declaration, and under the shared parent
`Request` one element per field with the escaped field value. Marshalling
string fields cannot fail. -/
def marshalRequest (r : AutoDiscoveryRequest) : GoString × Option GoError :=
  (str "<Autodiscover xmlns=\"http://schemas.microsoft.com/exchange/autodiscover/outlook/requestschema/2006\">"
    ++ str "<Request>"
    ++ str "<EMailAddress>" ++ EscapeString r.EMailAddress ++ str "</EMailAddress>"
    ++ str "<AcceptableResponseSchema>" ++ EscapeString r.AcceptableResponseSchema
    ++ str "</AcceptableResponseSchema>"
    ++ str "</Request>"
    ++ str "</Autodiscover>", none)

/-- `requestBody(emailAddress)`. -/
def requestBody (emailAddress : GoString) : GoString × Option GoError :=
  let requestBody : AutoDiscoveryRequest :=
    { EMailAddress := emailAddress
      AcceptableResponseSchema :=
        str "http://schemas.microsoft.com/exchange/autodiscover/outlook/responseschema/2006a" }
  marshalRequest requestBody

/-! ## Reference notions used to state the properties of `requestBody` -/

/-- The output of `requestBody` up to and including `<EMailAddress>`. -/
def requestHead : GoString :=
  str "<Autodiscover xmlns=\"http://schemas.microsoft.com/exchange/autodiscover/outlook/requestschema/2006\"><Request><EMailAddress>"

/-- The output of `requestBody` from `</EMailAddress>` on. -/
def requestTail : GoString :=
  str "</EMailAddress><AcceptableResponseSchema>http://schemas.microsoft.com/exchange/autodiscover/outlook/responseschema/2006a</AcceptableResponseSchema></Request></Autodiscover>"

/-- The address holds none of the bytes `&`, `<`, `>`, `"`, the apostrophe,
tab, newline, carriage return. -/
def noXmlSpecial (address : GoString) : Prop :=
  ∀ b ∈ address, b ≠ 38 ∧ b ≠ 60 ∧ b ≠ 62 ∧ b ≠ 34 ∧ b ≠ 39 ∧ b ≠ 9 ∧ b ≠ 10 ∧ b ≠ 13

instance (address : GoString) : Decidable (noXmlSpecial address) := by
  unfold noXmlSpecial; infer_instance

/-- A character of the XML character range (U+0020-U+D7FF, U+E000-U+FFFD,
U+10000-U+10FFFF) that is none of `&`, `<`, `>`, `"` and the apostrophe. -/
def plainXmlChar (c : Char) : Prop :=
  (c.toNat ≠ 38 ∧ c.toNat ≠ 60 ∧ c.toNat ≠ 62 ∧ c.toNat ≠ 34 ∧ c.toNat ≠ 39) ∧
  ((0x20 ≤ c.toNat ∧ c.toNat ≤ 0xD7FF) ∨ (0xE000 ≤ c.toNat ∧ c.toNat ≤ 0xFFFD) ∨
    (0x10000 ≤ c.toNat ∧ c.toNat ≤ 0x10FFFF))

instance (c : Char) : Decidable (plainXmlChar c) := by
  unfold plainXmlChar; infer_instance

/-! ## `encoding/base64`, `strings.Split` -/

/-- The alphabet of `base64.StdEncoding`. -/
def encodeStd : GoString :=
  str "ABCDEFGHIJKLMNOPQRSTUVWXYZabcdefghijklmnopqrstuvwxyz0123456789+/"

/-- `(*Encoding).Encode` of `base64.StdEncoding`: three bytes give four
characters; a remainder of one or two bytes is padded with `=`. -/
def base64Encode : List UInt8 → GoString
  | [] => []
  | [a] =>
    let val := a.toNat <<< 16
    [encodeStd.getD ((val >>> 18) &&& 0x3F) 0, encodeStd.getD ((val >>> 12) &&& 0x3F) 0, 61, 61]
  | [a, b] =>
    let val := (a.toNat <<< 16) ||| (b.toNat <<< 8)
    [encodeStd.getD ((val >>> 18) &&& 0x3F) 0, encodeStd.getD ((val >>> 12) &&& 0x3F) 0,
      encodeStd.getD ((val >>> 6) &&& 0x3F) 0, 61]
  | a :: b :: c :: rest =>
    let val := (a.toNat <<< 16) ||| (b.toNat <<< 8) ||| c.toNat
    encodeStd.getD ((val >>> 18) &&& 0x3F) 0 :: encodeStd.getD ((val >>> 12) &&& 0x3F) 0 ::
      encodeStd.getD ((val >>> 6) &&& 0x3F) 0 :: encodeStd.getD (val &&& 0x3F) 0 ::
      base64Encode rest

/-- `basicAuth(username, password)`. -/
def basicAuth (username password : GoString) : GoString :=
  let auth := username ++ str ":" ++ password
  base64Encode auth

/-- `strings.Split(s, sep)` for a separator of one byte: the pieces of `s`
between the occurrences of `sep`. -/
def Split (s : GoString) (sep : UInt8) : List GoString :=
  match s with
  | [] => [[]]
  | b :: rest =>
    if b = sep then [] :: Split rest sep
    else
      match Split rest sep with
      | [] => [[b]]
      | piece :: pieces => (b :: piece) :: pieces

/-! ## The HTTP collaborators -/

/-- What the package sets on, and the transport sees of, an `http.Request`. -/
structure Request where
  Method : GoString
  URL : GoString
  Header : List (GoString × GoString)
  Body : Option GoString
  deriving DecidableEq, Repr

/-- What the package reads of an `http.Response`: the status code, the header,
and the outcome of `io.ReadAll(resp.Body)`. -/
structure Response where
  StatusCode : Int
  Header : List (GoString × GoString)
  Body : Except GoError GoString

/-- `Header.Get(key)`: the first value stored under `key`, or `""`. -/
def headerGet (h : List (GoString × GoString)) (key : GoString) : GoString :=
  match h.find? fun kv => kv.1 == key with
  | some kv => kv.2
  | none => str ""

/-- The collaborators of the package, external to it: the error (if any) with
which `http.NewRequest` rejects a URL; the transport (`http.Transport`), one
exchange with the server per request; the request `net/http` builds for the
next hop of a redirect out of the first request of the chain, the request
just answered and its response (the `Location` value resolved against the
URL just requested, the method, the copied headers, `Referer`), or the error
of a `Location` value that cannot be parsed; and the XML decoder. -/
structure Collaborators where
  newRequestError : GoString → Option GoError
  RoundTrip : Request → Except GoError Response
  nextHop : Request → Request → Response → Except GoError Request
  unmarshal : Unmarshal

/-- `redirectBehavior`: the statuses an `http.Client` follows. (A 307 or 308 is
not followed when the request has a body that cannot be replayed; the
requests of this package have no body or a `*bytes.Buffer` body, for which
`http.NewRequest` sets `GetBody`.) -/
def shouldRedirect (status : Int) : Bool :=
  status == 301 || status == 302 || status == 303 || status == 307 || status == 308

/-- The loop of `(*http.Client).do` for a client whose `CheckRedirect` is nil,
as in `httpClient := &http.Client{Transport: transport}`: send `req`; a
transport error ends the call; a response that is no redirect, or a redirect
without `Location`, is returned; otherwise the next hop is built and
followed, unless ten requests have been sent (`defaultCheckRedirect`,
"stopped after 10 redirects", here the error `external 10`). `ireq` is the
first request of the chain and `remaining` the number of further requests
allowed. The result is the outcome of `Do` with the requests sent to the
transport. -/
def clientDo (w : Collaborators) (ireq : Request) :
    Nat → Request → Except GoError Response × List Request
  | remaining, req =>
    match w.RoundTrip req with
    | .error err => (.error err, [req])
    | .ok resp =>
      if !shouldRedirect resp.StatusCode then (.ok resp, [req])
      else if headerGet resp.Header (str "Location") = str "" then (.ok resp, [req])
      else
        match w.nextHop ireq req resp with
        | .error err => (.error err, [req])
        | .ok next =>
          match remaining with
          | 0 => (.error (.external 10), [req])
          | r + 1 => ((clientDo w ireq r next).1, req :: (clientDo w ireq r next).2)

/-- `httpClient.Do(req)`. -/
def Collaborators.Do (w : Collaborators) (req : Request) : Except GoError Response :=
  (clientDo w req 9 req).1

/-- The requests `httpClient.Do(req)` sends to the transport, in order. -/
def Collaborators.roundTrips (w : Collaborators) (req : Request) : List Request :=
  (clientDo w req 9 req).2

/-- `http.NewRequest(method, url, body)`. -/
def NewRequest (w : Collaborators) (method url : GoString) (body : Option GoString) :
    Except GoError Request :=
  match w.newRequestError url with
  | some err => .error err
  | none => .ok { Method := method, URL := url, Header := [], Body := body }

/-! ## `redirectedUrl`, `discoveryUrls`, `Discover` -/

/-- `redirectedUrl(emailAddress)`: the returned string and the requests passed
to `httpClient.Do`, in order; `none` is a panic. -/
def redirectedUrl (w : Collaborators) (emailAddress : GoString) :
    Option (GoString × List Request) := do
  let domain ← index (Split emailAddress 64) 1
  match NewRequest w (str "GET")
      (str "https://autodiscover." ++ domain ++ str "/autodiscover/autodiscover.xml") none with
  | .error _ => some (str "", [])
  | .ok req =>
    match w.Do req with
    | .error _ => some (str "", [req])
    | .ok resp =>
      if resp.StatusCode ≠ 302 then some (str "", [req])
      else some (headerGet resp.Header (str "Location"), [req])

/-- `discoveryUrls(emailAddress)`: the three candidates and the requests passed
to `httpClient.Do`; `none` is a panic. -/
def discoveryUrls (w : Collaborators) (emailAddress : GoString) :
    Option (List GoString × List Request) := do
  let domain ← index (Split emailAddress 64) 1
  let (redirected, sent) ← redirectedUrl w emailAddress
  some ([str "https://" ++ domain ++ str "/autodiscover/autodiscover.xml",
         str "https://autodiscover." ++ domain ++ str "/autodiscover/autodiscover.xml",
         redirected], sent)

/-- The `for` loop of `Discover` over the remaining candidates, followed by the
final `return`; `sent` holds the requests passed to `httpClient.Do` so far. -/
def discoverLoop (w : Collaborators) (emailAddress password body : GoString) :
    List GoString → List Request → Option ((DiscoveredInfo × Option GoError) × List Request)
  | [], sent =>
    some ((DiscoveredInfo.zero, some (.errorsNew "failed to fetch discovery information")), sent)
  | url :: rest, sent =>
    if url = str "" then discoverLoop w emailAddress password body rest sent
    else
      match NewRequest w (str "GET") url (some body) with
      | .error _ => discoverLoop w emailAddress password body rest sent
      | .ok req0 =>
        let req : Request :=
          { req0 with Header := req0.Header ++
              [(str "Authorization", str "Basic " ++ basicAuth emailAddress password)] }
        match w.Do req with
        | .error _ => discoverLoop w emailAddress password body rest (sent ++ [req])
        | .ok resp =>
          if resp.StatusCode ≠ 200 then
            discoverLoop w emailAddress password body rest (sent ++ [req])
          else
            match resp.Body with
            | .error _ => discoverLoop w emailAddress password body rest (sent ++ [req])
            | .ok respBody =>
              match parseResponse w.unmarshal respBody with
              | none => none
              | some (_, some _) =>
                discoverLoop w emailAddress password body rest (sent ++ [req])
              | some (info, none) => some ((info, none), sent ++ [req])

/-- `Discover(emailAddress, password)`: the result and the requests passed to
`httpClient.Do`, in order; `none` is a panic. -/
def Discover (w : Collaborators) (emailAddress password : GoString) :
    Option ((DiscoveredInfo × Option GoError) × List Request) :=
  match requestBody emailAddress with
  | (_, some err) => some ((DiscoveredInfo.zero, some err), [])
  | (body, none) => do
    let (urls, sent) ← discoveryUrls w emailAddress
    discoverLoop w emailAddress password body urls sent

/-! ## Reference notions used to state the properties of `Discover` -/

/-- The authenticated probe of a candidate URL: a `GET` with the request
payload as body and the `Authorization` header. -/
def probeRequest (emailAddress password url : GoString) : Request :=
  { Method := str "GET"
    URL := url
    Header := [(str "Authorization", str "Basic " ++ basicAuth emailAddress password)]
    Body := some (requestBody emailAddress).1 }

/-- The candidate `url` succeeds with `info`: it is non-empty, its request can
be built, `httpClient.Do` answers the probe without error with status 200,
the body is read and `parseResponse` succeeds on it with `info`. -/
def ProbeSucceeds (w : Collaborators) (emailAddress password url : GoString)
    (info : DiscoveredInfo) : Prop :=
  url ≠ str "" ∧ w.newRequestError url = none ∧
  ∃ resp respBody, w.Do (probeRequest emailAddress password url) = .ok resp ∧
    resp.StatusCode = 200 ∧ resp.Body = .ok respBody ∧
    parseResponse w.unmarshal respBody = some (info, none)

/-- A probe is sent to the candidate `url`: it is non-empty and its request can
be built. -/
def probed (w : Collaborators) (url : GoString) : Bool :=
  url != str "" && (w.newRequestError url).isNone

/-! ## Reference notions for the field extraction of `exchangeVersion` -/

/-- The field extraction of `exchangeVersion` on the parsed value `i`: the
slices `[4:10]`, `[10:16]`, `[17:32]` of `fmt.Sprintf("%032b", i)`, each handed
to `strconv.ParseInt(_, 2, 32)`, with the error every sub-parse returns (the
source discards it); `none` is a panic of a slice expression. -/
def fieldsBySlicing (i : Nat) :
    Option ((Int × Option GoError) × (Int × Option GoError) × (Int × Option GoError)) := do
  let binString := sprintf032b i
  let major := ParseInt (← slice binString 4 10) 2 32
  let minor := ParseInt (← slice binString 10 16) 2 32
  let build := ParseInt (← slice binString 17 32) 2 32
  some (major, minor, build)

/-- The three fields by integer arithmetic on the parsed value: major, minor,
build. -/
def fieldsByArithmetic (n : Nat) : Int × Int × Int :=
  (((n / 2 ^ 22 % 64 : Nat) : Int), ((n / 2 ^ 16 % 64 : Nat) : Int), ((n % 2 ^ 15 : Nat) : Int))

/-! ## Reference notions for the candidates and the probes of `Discover` -/

/-- The candidate `url` is empty or its probe fails at some stage: the request
cannot be built, `httpClient.Do` returns an error, the status is not 200, the
body cannot be read, or `parseResponse` returns an error. -/
def ProbeFails (w : Collaborators) (emailAddress password url : GoString) : Prop :=
  url = str "" ∨ (∃ err, w.newRequestError url = some err) ∨
  (∃ err, w.Do (probeRequest emailAddress password url) = .error err) ∨
  (∃ resp, w.Do (probeRequest emailAddress password url) = .ok resp ∧
    (resp.StatusCode ≠ 200 ∨ (∃ err, resp.Body = .error err) ∨
      (∃ respBody info err, resp.Body = .ok respBody ∧
        parseResponse w.unmarshal respBody = some (info, some err))))

/-- The unauthenticated request of `redirectedUrl` for the domain `d`. -/
def redirectProbe (d : GoString) : Request :=
  { Method := str "GET"
    URL := str "https://autodiscover." ++ d ++ str "/autodiscover/autodiscover.xml"
    Header := []
    Body := none }

/-- The next hop `net/http` builds for a `GET` that a 301, 302 or 303 redirects
to an absolute `Location`: a `GET` without body to that URL, with the headers
of the first request and `Referer` set to the URL just requested. -/
def followGet (ireq last : Request) (resp : Response) : Except GoError Request :=
  .ok { Method := str "GET"
        URL := headerGet resp.Header (str "Location")
        Header := ireq.Header ++ [(str "Referer", last.URL)]
        Body := none }

/-- The servers of the fallback scenario at `user@example.com`: the direct
endpoint is unreachable, the `autodiscover.` endpoint answers a request
without `Authorization` with a 302 to `mail.example.net` and a request with
it with 404, and `mail.example.net` answers 200 with a response document. -/
def redirectServer : Collaborators :=
  { newRequestError := fun _ => none
    RoundTrip := fun req =>
      if req.URL = str "https://example.com/autodiscover/autodiscover.xml" then
        .error (.external 1)
      else if req.URL = str "https://autodiscover.example.com/autodiscover/autodiscover.xml" then
        if headerGet req.Header (str "Authorization") = str "" then
          .ok { StatusCode := 302
                Header := [(str "Location", str "https://mail.example.net/autodiscover/autodiscover.xml")]
                Body := .ok (str "") }
        else .ok { StatusCode := 404, Header := [], Body := .ok (str "") }
      else .ok { StatusCode := 200, Header := [], Body := .ok (str "<Autodiscover/>") }
    nextHop := followGet
    unmarshal := fun _ => .ok ⟨testDocumentProtocols⟩ }

/-- Servers under which the `autodiscover.` endpoint of `user@example.com`
redirects a request without `Authorization` to itself and answers a request
with it with 401, while the direct endpoint is unreachable. -/
def selfRedirectServer : Collaborators :=
  { newRequestError := fun _ => none
    RoundTrip := fun req =>
      if req.URL = str "https://autodiscover.example.com/autodiscover/autodiscover.xml" then
        if headerGet req.Header (str "Authorization") = str "" then
          .ok { StatusCode := 302
                Header := [(str "Location", str "https://autodiscover.example.com/autodiscover/autodiscover.xml")]
                Body := .ok (str "") }
        else .ok { StatusCode := 401, Header := [], Body := .ok (str "") }
      else .error (.external 1)
    nextHop := followGet
    unmarshal := fun _ => .error (.external 2) }

/-- Servers under which both endpoints of `user@example.com` fail, each in
another way: the direct endpoint answers 200 with a body the XML decoder
rejects, the `autodiscover.` endpoint answers a request without
`Authorization` with a 302 that has no `Location` header and a request with
it with 500. -/
def exhaustedServer : Collaborators :=
  { newRequestError := fun _ => none
    RoundTrip := fun req =>
      if req.URL = str "https://example.com/autodiscover/autodiscover.xml" then
        .ok { StatusCode := 200, Header := [], Body := .ok (str "not xml") }
      else if headerGet req.Header (str "Authorization") = str "" then
        .ok { StatusCode := 302, Header := [], Body := .ok (str "") }
      else .ok { StatusCode := 500, Header := [], Body := .ok (str "") }
    nextHop := followGet
    unmarshal := fun _ => .error (.external 2) }

/-- Servers under which every request is answered with status 200 and a
response document whose `EXCH` record and `EXPR` record both lack an
`EwsUrl` element. -/
def emptyUrlWorld : Collaborators :=
  { newRequestError := fun _ => none
    RoundTrip := fun _ =>
      .ok { StatusCode := 200, Header := [], Body := .ok (str "<Autodiscover/>") }
    nextHop := followGet
    unmarshal := fun _ =>
      .ok ⟨[⟨str "EXCH", str "73C1840A", str ""⟩, ⟨str "EXPR", str "", str ""⟩]⟩ }

/-! ## Reference notions for the escaping in `requestBody` -/

/-- The eight replacements of XML text escaping on one byte: `&`, `<`, `>`,
`"`, the apostrophe, tab, newline, carriage return; every other byte stays. -/
def xmlEscapeByte (b : UInt8) : GoString :=
  if b.toNat = 38 then str "&amp;"
  else if b.toNat = 60 then str "&lt;"
  else if b.toNat = 62 then str "&gt;"
  else if b.toNat = 34 then str "&#34;"
  else if b.toNat = 39 then str "&#39;"
  else if b.toNat = 9 then str "&#x9;"
  else if b.toNat = 10 then str "&#xA;"
  else if b.toNat = 13 then str "&#xD;"
  else [b]

/-- A text with exactly the eight replacements applied. -/
def xmlEscape8 (s : GoString) : GoString := s.flatMap xmlEscapeByte

/-! ## `exchangeVersion`: binary rendering and field extraction -/

theorem bitsW_length (w n : Nat) : (bitsW w n).length = w := by
  induction w with
  | zero => rfl
  | succ w ih => simp [bitsW, ih]

theorem bitsW_snoc (w n : Nat) : bitsW (w + 1) n = bitsW w (n / 2) ++ [bitChar n] := by
  induction w with
  | zero => simp [bitsW]
  | succ w ih =>
    rw [bitsW, ih, bitsW]
    simp [Nat.div_div_eq_div_mul, pow_succ, Nat.mul_comm]

theorem bitsW_zero (w : Nat) : bitsW w 0 = List.replicate w 48 := by
  induction w with
  | zero => rfl
  | succ w ih => simp [bitsW, ih, List.replicate_succ, bitChar]

theorem fmtBits_acc (fuel u : Nat) (buf : GoString) :
    fmtBits fuel u buf = fmtBits fuel u [] ++ buf := by
  induction fuel generalizing u buf with
  | zero => simp [fmtBits]
  | succ f ih =>
    unfold fmtBits
    split
    · rw [ih, ih (u / 2) [_]]; simp
    · simp

theorem fmtBits_pad (fuel : Nat) : ∀ (w u : Nat), u < 2 ^ w → 1 ≤ w → w ≤ fuel + 1 →
    List.replicate (w - (fmtBits fuel u []).length) 48 ++ fmtBits fuel u [] = bitsW w u := by
  induction fuel with
  | zero =>
    intro w u hu h1 hw
    have : w = 1 := by omega
    subst this
    simp [fmtBits, bitsW, bitChar]
  | succ f ih =>
    intro w u hu h1 hw
    obtain ⟨v, rfl⟩ : ∃ v, w = v + 1 := ⟨w - 1, by omega⟩
    unfold fmtBits
    by_cases h2 : u ≥ 2
    · have hv : 1 ≤ v := by
        rcases v with _ | v
        · simp at hu; omega
        · omega
      have hu2 : u / 2 < 2 ^ v := by
        rw [pow_succ] at hu; omega
      rw [if_pos h2, fmtBits_acc, bitsW_snoc, ← ih v (u / 2) hu2 hv (by omega)]
      simp [bitChar]
    · rw [if_neg h2, bitsW_snoc]
      have hu0 : u / 2 = 0 := by omega
      have hum : u % 2 = u := by omega
      simp [hu0, bitsW_zero, bitChar, hum]

theorem sprintf032b_eq (n : Nat) (h : n < 2 ^ 32) : sprintf032b n = bitsW 32 n := by
  unfold sprintf032b
  exact fmtBits_pad 64 32 n h (by omega) (by omega)

theorem bitChar_toNat (b : Nat) : (bitChar b).toNat = 48 + b % 2 := by
  simp only [bitChar, UInt8.ofNat, UInt8.toNat, BitVec.toNat_ofNat]
  omega

theorem parseUintLoop_bits (s0 : GoString) (cutoff maxVal : Nat)
    (hc : maxVal < cutoff) (hm : cutoff * 2 ≤ 2 ^ 64) :
    ∀ (w n acc : Nat), acc * 2 ^ w + n % 2 ^ w ≤ maxVal →
      parseUintLoop s0 2 cutoff maxVal (bitsW w n) acc = (acc * 2 ^ w + n % 2 ^ w, none) := by
  intro w
  induction w with
  | zero => intro n acc _; simp [bitsW, parseUintLoop, Nat.mod_one]
  | succ w ih =>
    intro n acc h
    have hmod : n % 2 ^ (w + 1) = n % 2 ^ w + 2 ^ w * (n / 2 ^ w % 2) := Nat.mod_pow_succ
    have hp : 0 < 2 ^ w := Nat.two_pow_pos _
    have hsplit : acc * 2 ^ (w + 1) + n % 2 ^ (w + 1)
        = (acc * 2 + n / 2 ^ w % 2) * 2 ^ w + n % 2 ^ w := by
      rw [hmod, pow_succ]; ring
    rw [hsplit] at h ⊢
    have hle : acc * 2 + n / 2 ^ w % 2 ≤ maxVal := by
      have : (acc * 2 + n / 2 ^ w % 2) * 1 ≤ (acc * 2 + n / 2 ^ w % 2) * 2 ^ w :=
        Nat.mul_le_mul_left _ hp
      omega
    have hd : n / 2 ^ w % 2 < 2 := Nat.mod_lt _ (by norm_num)
    have h1 : digitValue (bitChar (n / 2 ^ w)).toNat = some (n / 2 ^ w % 2) := by
      rw [bitChar_toNat, digitValue, if_pos (by omega), Nat.add_sub_cancel_left]
    rw [bitsW, parseUintLoop, h1]
    simp only []
    rw [if_neg (by omega), if_neg (by omega)]
    have h2 : acc * 2 % 2 ^ 64 = acc * 2 := Nat.mod_eq_of_lt (by omega)
    have h3 : (acc * 2 + n / 2 ^ w % 2) % 2 ^ 64 = acc * 2 + n / 2 ^ w % 2 :=
      Nat.mod_eq_of_lt (by omega)
    rw [h2, h3, if_neg (by omega)]
    exact ih n _ h

theorem ParseUint_bits (w n : Nat) (hw : 1 ≤ w) (h : w ≤ 32) :
    ParseUint (bitsW w n) 2 32 = (n % 2 ^ w, none) := by
  have hne : bitsW w n ≠ [] := by
    intro h0
    have := bitsW_length w n
    rw [h0] at this
    simp at this
    omega
  have hlt : n % 2 ^ w < 2 ^ w := Nat.mod_lt _ (Nat.two_pow_pos _)
  have hpw : 2 ^ w ≤ 2 ^ 32 := Nat.pow_le_pow_right (by norm_num) h
  unfold ParseUint
  rw [if_neg hne]
  have := parseUintLoop_bits (bitsW w n) (maxUint64 / 2 + 1) (2 ^ 32 - 1)
    (by decide) (by decide) w n 0 (by omega)
  simpa using this

theorem ParseInt_bits (w n : Nat) (hw : 1 ≤ w) (h : w ≤ 31) :
    ParseInt (bitsW w n) 2 32 = (((n % 2 ^ w : Nat) : Int), none) := by
  obtain ⟨v, rfl⟩ : ∃ v, w = v + 1 := ⟨w - 1, by omega⟩
  have hlt : n % 2 ^ (v + 1) < 2 ^ (v + 1) := Nat.mod_lt _ (Nat.two_pow_pos _)
  have hpw : 2 ^ (v + 1) ≤ 2 ^ 31 := Nat.pow_le_pow_right (by norm_num) h
  have hU := ParseUint_bits (v + 1) n hw (by omega)
  have hb : (bitChar (n / 2 ^ v)) ≠ 43 ∧ (bitChar (n / 2 ^ v)) ≠ 45 := by
    have e43 : (43 : UInt8).toNat = 43 := rfl
    have e45 : (45 : UInt8).toNat = 45 := rfl
    constructor <;> intro hc <;> have := congrArg UInt8.toNat hc <;>
      rw [bitChar_toNat] at this <;> omega
  rw [bitsW] at hU ⊢
  unfold ParseInt
  simp only [hb.1, hb.2, or_self, if_false, decide_False]
  rw [hU]
  simp
  omega

set_option maxRecDepth 100000 in
theorem digitValue_hex : ∀ c < 256,
    ((digitValue c).bind fun d => if d < 16 then some d else none) = hexDigitCode c := by
  unfold digitValue lower hexDigitCode; decide

theorem hexDigit_lt (b : UInt8) (d : Nat) (h : hexDigit b = some d) : d < 16 := by
  unfold hexDigit hexDigitCode at h
  split at h
  · cases h; omega
  · split at h
    · cases h; omega
    · split at h
      · cases h; omega
      · cases h

theorem hexValueFrom_mono (s : GoString) : ∀ acc, acc ≤ hexValueFrom acc s := by
  induction s with
  | nil => intro acc; exact Nat.le_refl _
  | cons b s ih =>
    intro acc
    have := ih (16 * acc + (hexDigit b).getD 0)
    simp only [hexValueFrom, List.foldl_cons] at this ⊢
    omega

theorem parseUintLoop_hex (s0 : GoString) : ∀ (rest : GoString) (acc : Nat), acc ≤ 2 ^ 32 - 1 →
    (allHex rest ∧ hexValueFrom acc rest ≤ 2 ^ 32 - 1 →
      parseUintLoop s0 16 (maxUint64 / 16 + 1) (2 ^ 32 - 1) rest acc
        = (hexValueFrom acc rest, none)) ∧
    (¬ (allHex rest ∧ hexValueFrom acc rest ≤ 2 ^ 32 - 1) →
      ∃ e, (parseUintLoop s0 16 (maxUint64 / 16 + 1) (2 ^ 32 - 1) rest acc).2 = some e) := by
  intro rest
  induction rest with
  | nil =>
    intro acc hacc
    refine ⟨fun _ => rfl, fun h => absurd ⟨?_, ?_⟩ h⟩
    · intro b hb; cases hb
    · exact hacc
  | cons b rest ih =>
    intro acc hacc
    have hcut : maxUint64 / 16 + 1 = 2 ^ 60 := by decide
    have hallhex : allHex (b :: rest) ↔ (hexDigit b).isSome ∧ allHex rest := by
      simp [allHex]
    have hval : hexValueFrom acc (b :: rest)
        = hexValueFrom (16 * acc + (hexDigit b).getD 0) rest := by
      simp [hexValueFrom]
    have hmono := hexValueFrom_mono rest (16 * acc + (hexDigit b).getD 0)
    have hdv := digitValue_hex b.toNat (UInt8.toNat_lt b)
    rw [hallhex, hval, parseUintLoop, hcut]
    cases hD : digitValue b.toNat with
    | none =>
      have hd : hexDigit b = none := by rw [hexDigit, ← hdv, hD]; rfl
      simp [hd]
    | some d =>
      rw [hD] at hdv
      by_cases hd16 : d ≥ 16
      · have hd : hexDigit b = none := by
          rw [hexDigit, ← hdv]; simp [Option.bind]; omega
        simp [hd, hd16]
      · have hd : hexDigit b = some d := by
          rw [hexDigit, ← hdv]; simp [Option.bind]; omega
        simp only [hd, Option.getD_some, Option.isSome_some, true_and] at hmono ⊢
        rw [if_neg hd16, if_neg (by omega)]
        have e1 : acc * 16 % 2 ^ 64 = acc * 16 := Nat.mod_eq_of_lt (by omega)
        have e2 : (acc * 16 + d) % 2 ^ 64 = acc * 16 + d := Nat.mod_eq_of_lt (by omega)
        rw [e1, e2]
        by_cases hov : acc * 16 + d > 2 ^ 32 - 1
        · rw [if_pos (Or.inr hov)]
          refine ⟨fun h => ?_, fun _ => ⟨_, rfl⟩⟩
          omega
        · rw [if_neg (by omega)]
          have := ih (acc * 16 + d) (by omega)
          rw [Nat.mul_comm 16 acc]
          exact this

theorem ParseUint_hex (s : GoString) :
    (s ≠ [] ∧ allHex s ∧ hexValue s < 2 ^ 32 → ParseUint s 16 32 = (hexValue s, none)) ∧
    (¬ (s ≠ [] ∧ allHex s ∧ hexValue s < 2 ^ 32) → ∃ e, (ParseUint s 16 32).2 = some e) := by
  have hloop := parseUintLoop_hex s s 0 (by omega)
  have hiff : hexValueFrom 0 s ≤ 2 ^ 32 - 1 ↔ hexValue s < 2 ^ 32 := by
    unfold hexValue; omega
  rw [hiff] at hloop
  unfold ParseUint
  by_cases hs : s = []
  · subst hs
    simp
  · rw [if_neg hs]
    refine ⟨fun h => hloop.1 ⟨h.2.1, h.2.2⟩, fun h => hloop.2 (fun h2 => h ⟨hs, h2.1, h2.2⟩)⟩

theorem ParseUint_ok (s : GoString) (n : Nat) (h : ParseUint s 16 32 = (n, none)) :
    s ≠ [] ∧ allHex s ∧ hexValue s = n ∧ n < 2 ^ 32 := by
  by_cases hv : s ≠ [] ∧ allHex s ∧ hexValue s < 2 ^ 32
  · have := (ParseUint_hex s).1 hv
    rw [h] at this
    have hn : n = hexValue s := congrArg Prod.fst this
    exact ⟨hv.1, hv.2.1, hn.symm, hn ▸ hv.2.2⟩
  · obtain ⟨e, he⟩ := (ParseUint_hex s).2 hv
    rw [h] at he
    cases he

theorem bitsW_split (a b n : Nat) : bitsW (a + b) n = bitsW a (n / 2 ^ b) ++ bitsW b n := by
  induction a with
  | zero => simp [bitsW]
  | succ a ih =>
    rw [Nat.add_right_comm, bitsW, ih, bitsW]
    simp [Nat.div_div_eq_div_mul, pow_add, Nat.mul_comm]

theorem slice_bitsW (n lo len tl : Nat) :
    slice (bitsW (lo + len + tl) n) lo (lo + len) = some (bitsW len (n / 2 ^ tl)) := by
  have hlen := bitsW_length (lo + len + tl) n
  unfold slice
  rw [if_pos (by omega)]
  rw [bitsW_split (lo + len) tl n, bitsW_split lo len (n / 2 ^ tl)]
  have h1 := bitsW_length lo (n / 2 ^ tl / 2 ^ len)
  have h2 := bitsW_length len (n / 2 ^ tl)
  simp [List.drop_append_eq_append_drop, List.take_append_eq_append_take, h1, h2]

theorem exchangeVersion_fields (rawHex : GoString) (n : Nat)
    (h : ParseUint rawHex 16 32 = (n, none)) :
    exchangeVersion rawHex
      = some (versionSwitch ((n / 2 ^ 22 % 64 : Nat) : Int) ((n / 2 ^ 16 % 64 : Nat) : Int)
          ((n % 2 ^ 15 : Nat) : Int)) := by
  obtain ⟨_, _, _, hn⟩ := ParseUint_ok rawHex n h
  have s1 := slice_bitsW n 4 6 22
  have s2 := slice_bitsW n 10 6 16
  have s3 := slice_bitsW n 17 15 0
  have p1 := ParseInt_bits 6 (n / 2 ^ 22) (by omega) (by omega)
  have p2 := ParseInt_bits 6 (n / 2 ^ 16) (by omega) (by omega)
  have p3 := ParseInt_bits 15 n (by omega) (by omega)
  simp only [Nat.reduceAdd, pow_zero, Nat.div_one] at s1 s2 s3
  unfold exchangeVersion
  rw [h]
  simp only [sprintf032b_eq n hn, s1, s2, s3, Option.bind_eq_bind, Option.some_bind, p1, p2, p3]
  rfl

theorem foldl_bits (n : Nat) : ∀ (len lo acc : Nat), lo + len ≤ 32 →
    ((List.range' lo len).map (bitAt n)).foldl (fun acc b => 2 * acc + b) acc
      = acc * 2 ^ len + n / 2 ^ (32 - (lo + len)) % 2 ^ len := by
  intro len
  induction len with
  | zero => intro lo acc _; simp [Nat.mod_one]
  | succ len ih =>
    intro lo acc h
    rw [List.range'_succ, List.map_cons, List.foldl_cons, ih (lo + 1) _ (by omega)]
    have e1 : 32 - (lo + 1 + len) = 32 - (lo + (len + 1)) := by omega
    have e2 : 31 - lo = (32 - (lo + (len + 1))) + len := by omega
    rw [e1, bitAt, e2]
    generalize 32 - (lo + (len + 1)) = k
    have hm : n / 2 ^ k % 2 ^ (len + 1) = n / 2 ^ k % 2 ^ len + 2 ^ len * (n / 2 ^ k / 2 ^ len % 2) :=
      Nat.mod_pow_succ
    rw [hm, pow_add, Nat.div_div_eq_div_mul, pow_succ]
    ring

theorem bitField_eq (n lo hi : Nat) (h : lo ≤ hi) (h2 : hi ≤ 32) :
    bitField n lo hi = n / 2 ^ (32 - hi) % 2 ^ (hi - lo) := by
  have := foldl_bits n (hi - lo) lo 0 (by omega)
  have e : lo + (hi - lo) = hi := by omega
  rw [e, Nat.zero_mul, Nat.zero_add] at this
  rw [← this, List.range'_eq_map_range, List.map_map]
  rfl

theorem exchangeVersion_bitFields (rawHex : GoString) (n : Nat)
    (h : ParseUint rawHex 16 32 = (n, none)) :
    exchangeVersion rawHex
      = some (versionSwitch (bitField n 4 10) (bitField n 10 16) (bitField n 17 32)) := by
  rw [bitField_eq n 4 10 (by omega) (by omega), bitField_eq n 10 16 (by omega) (by omega),
    bitField_eq n 17 32 (by omega) (by omega)]
  simpa using exchangeVersion_fields rawHex n h

/-- C1: for every token that parses as an unsigned 32-bit integer `n`, with
major = bits[4:10] and minor = bits[10:16] of the 32-bit rendering of `n`,
`exchangeVersion` returns without error the label of the mapping table for
every listed pair other than (15, 0); the tokens `738180DA` and `73C1840A`
give `Exchange2010_SP1` and `Exchange2016`. -/
theorem exchangeVersion_table (rawHex : GoString) (n : Nat)
    (h : ParseUint rawHex 16 32 = (n, none)) :
    (bitField n 4 10 = 8 → bitField n 10 16 = 0 →
      exchangeVersion rawHex = some (str "Exchange2007", none)) ∧
    (bitField n 4 10 = 8 → bitField n 10 16 = 1 ∨ bitField n 10 16 = 2 ∨ bitField n 10 16 = 3 →
      exchangeVersion rawHex = some (str "Exchange2007_SP1", none)) ∧
    (bitField n 4 10 = 14 → bitField n 10 16 = 0 →
      exchangeVersion rawHex = some (str "Exchange2010", none)) ∧
    (bitField n 4 10 = 14 → bitField n 10 16 = 1 →
      exchangeVersion rawHex = some (str "Exchange2010_SP1", none)) ∧
    (bitField n 4 10 = 14 → bitField n 10 16 = 2 ∨ bitField n 10 16 = 3 →
      exchangeVersion rawHex = some (str "Exchange2010_SP2", none)) ∧
    (bitField n 4 10 = 15 → bitField n 10 16 = 1 →
      exchangeVersion rawHex = some (str "Exchange2016", none)) ∧
    (bitField n 4 10 = 15 → bitField n 10 16 = 2 →
      exchangeVersion rawHex = some (str "Exchange2019", none)) ∧
    (bitField n 4 10 = 15 → bitField n 10 16 = 20 →
      exchangeVersion rawHex = some (str "Exchange2016", none)) ∧
    exchangeVersion (str "738180DA") = some (str "Exchange2010_SP1", none) ∧
    exchangeVersion (str "73C1840A") = some (str "Exchange2016", none) := by
  rw [exchangeVersion_bitFields rawHex n h]
  refine ⟨?_, ?_, ?_, ?_, ?_, ?_, ?_, ?_, by decide, by decide⟩
  · intro h1 h2; rw [h1, h2]; rfl
  · intro h1 h2; rcases h2 with h2 | h2 | h2 <;> rw [h1, h2] <;> rfl
  · intro h1 h2; rw [h1, h2]; rfl
  · intro h1 h2; rw [h1, h2]; rfl
  · intro h1 h2; rcases h2 with h2 | h2 <;> rw [h1, h2] <;> rfl
  · intro h1 h2; rw [h1, h2]; rfl
  · intro h1 h2; rw [h1, h2]; rfl
  · intro h1 h2; rw [h1, h2]; rfl

/-- The table at the token `73C1840A`: it parses as 0x73C1840A, whose major
field is 15 and minor field 1, and decodes to `Exchange2016`. -/
theorem exchangeVersion_table_witness :
    ParseUint (str "73C1840A") 16 32 = (0x73C1840A, none) ∧
    bitField 0x73C1840A 4 10 = 15 ∧ bitField 0x73C1840A 10 16 = 1 ∧
    exchangeVersion (str "73C1840A") = some (str "Exchange2016", none) :=
  ⟨by decide, by decide, by decide,
    (exchangeVersion_table (str "73C1840A") 0x73C1840A (by decide)).2.2.2.2.2.1
      (by decide) (by decide)⟩

/-- C2: for every token that parses as an unsigned 32-bit integer `n` whose
major field is 15 and minor field is 0, `exchangeVersion` returns
`Exchange2013` if the build field bits[17:32] is below 847 and
`Exchange2013_SP1` otherwise. -/
theorem exchangeVersion_build_threshold (rawHex : GoString) (n : Nat)
    (h : ParseUint rawHex 16 32 = (n, none))
    (hmajor : bitField n 4 10 = 15) (hminor : bitField n 10 16 = 0) :
    (bitField n 17 32 < 847 → exchangeVersion rawHex = some (str "Exchange2013", none)) ∧
    (847 ≤ bitField n 17 32 → exchangeVersion rawHex = some (str "Exchange2013_SP1", none)) := by
  rw [exchangeVersion_bitFields rawHex n h, hmajor, hminor]
  constructor
  · intro hb
    have : ¬ ((bitField n 17 32 : Nat) : Int) ≥ 847 := by omega
    simp [versionSwitch, this]
  · intro hb
    have : ((bitField n 17 32 : Nat) : Int) ≥ 847 := by omega
    simp [versionSwitch, this]

/-- The threshold at builds 846 and 847: the tokens `03C0034E` and `03C0034F`
have major 15, minor 0 and builds 846 and 847. -/
theorem exchangeVersion_build_threshold_witness :
    (bitField 0x03C0034E 17 32 = 846 ∧
      exchangeVersion (str "03C0034E") = some (str "Exchange2013", none)) ∧
    (bitField 0x03C0034F 17 32 = 847 ∧
      exchangeVersion (str "03C0034F") = some (str "Exchange2013_SP1", none)) :=
  ⟨⟨by decide, (exchangeVersion_build_threshold (str "03C0034E") 0x03C0034E (by decide)
      (by decide) (by decide)).1 (by decide)⟩,
   ⟨by decide, (exchangeVersion_build_threshold (str "03C0034F") 0x03C0034F (by decide)
      (by decide) (by decide)).2 (by decide)⟩⟩

theorem versionSwitch_major (major minor build : Nat)
    (h8 : major ≠ 8) (h14 : major ≠ 14) (h15 : major ≠ 15) :
    versionSwitch major minor build = (str "", some (.errorsNew "unknown major version")) := by
  have a : ¬ ((major : Int) = 8) := by omega
  have b : ¬ ((major : Int) = 14) := by omega
  have c : ¬ ((major : Int) = 15) := by omega
  simp only [versionSwitch, a, b, c, if_false]

theorem versionSwitch_minor (major minor build : Nat)
    (hmajor : (major = 8 ∨ major = 14) ∧ minor ≠ 0 ∧ minor ≠ 1 ∧ minor ≠ 2 ∧ minor ≠ 3 ∨
      major = 15 ∧ minor ≠ 0 ∧ minor ≠ 1 ∧ minor ≠ 2 ∧ minor ≠ 20) :
    versionSwitch major minor build = (str "", some (.errorsNew "unknown minor version")) := by
  have a0 : minor ≠ 0 := by omega
  have a1 : minor ≠ 1 := by omega
  have a2 : minor ≠ 2 := by omega
  have b0 : ¬ ((minor : Int) = 0) := by omega
  have b1 : ¬ ((minor : Int) = 1) := by omega
  have b2 : ¬ ((minor : Int) = 2) := by omega
  rcases hmajor with ⟨h | h, _, _, _, h3⟩ | ⟨h, _, _, _, h20⟩
  · subst h
    have b3 : ¬ ((minor : Int) = 3) := by omega
    simp [versionSwitch, b0, b1, b2, b3]
  · subst h
    have b3 : ¬ ((minor : Int) = 3) := by omega
    simp [versionSwitch, b0, b1, b2, b3]
  · subst h
    have b20 : ¬ ((minor : Int) = 20) := by omega
    simp [versionSwitch, b0, b1, b2, b20]

theorem versionSwitch_listed (major minor build : Nat) (h : listed major minor) :
    ∃ label, label ≠ str "" ∧ versionSwitch major minor build = (label, none) := by
  rcases h with ⟨h | h, m | m | m | m⟩ | ⟨h, m | m | m | m⟩ <;> subst h <;> subst m
  case inr.intro.inl =>
    by_cases hb : ((build : Int) ≥ 847)
    · exact ⟨str "Exchange2013_SP1", by decide, by simp [versionSwitch, hb]⟩
    · exact ⟨str "Exchange2013", by decide, by simp [versionSwitch, hb]⟩
  all_goals exact ⟨_, by decide, rfl⟩

theorem not_listed_cases (major minor : Nat) (h : ¬ listed major minor) :
    (major ≠ 8 ∧ major ≠ 14 ∧ major ≠ 15) ∨
    ((major = 8 ∨ major = 14) ∧ minor ≠ 0 ∧ minor ≠ 1 ∧ minor ≠ 2 ∧ minor ≠ 3 ∨
      major = 15 ∧ minor ≠ 0 ∧ minor ≠ 1 ∧ minor ≠ 2 ∧ minor ≠ 20) := by
  unfold listed at h
  omega

/-- C3: for every token that parses as an unsigned 32-bit integer `n`,
`exchangeVersion` returns an error and the empty label when the major field
is none of 8, 14, 15, when it is 8 or 14 and the minor field is not in
0..3, and when it is 15 and the minor field is none of 0, 1, 2, 20; it
returns a non-empty label and no error for every listed pair; so it fails if
and only if the pair is unlisted. -/
theorem exchangeVersion_unlisted (rawHex : GoString) (n : Nat)
    (h : ParseUint rawHex 16 32 = (n, none)) :
    (bitField n 4 10 ≠ 8 → bitField n 4 10 ≠ 14 → bitField n 4 10 ≠ 15 →
      exchangeVersion rawHex = some (str "", some (.errorsNew "unknown major version"))) ∧
    (bitField n 4 10 = 8 ∨ bitField n 4 10 = 14 →
      bitField n 10 16 ≠ 0 → bitField n 10 16 ≠ 1 → bitField n 10 16 ≠ 2 →
      bitField n 10 16 ≠ 3 →
      exchangeVersion rawHex = some (str "", some (.errorsNew "unknown minor version"))) ∧
    (bitField n 4 10 = 15 →
      bitField n 10 16 ≠ 0 → bitField n 10 16 ≠ 1 → bitField n 10 16 ≠ 2 →
      bitField n 10 16 ≠ 20 →
      exchangeVersion rawHex = some (str "", some (.errorsNew "unknown minor version"))) ∧
    (listed (bitField n 4 10) (bitField n 10 16) →
      ∃ label, label ≠ str "" ∧ exchangeVersion rawHex = some (label, none)) ∧
    ((∃ label err, exchangeVersion rawHex = some (label, some err)) ↔
      ¬ listed (bitField n 4 10) (bitField n 10 16)) := by
  rw [exchangeVersion_bitFields rawHex n h]
  refine ⟨?_, ?_, ?_, ?_, ?_⟩
  · intro h8 h14 h15
    rw [versionSwitch_major _ _ _ h8 h14 h15]
  · intro hm h0 h1 h2 h3
    rw [versionSwitch_minor _ _ _ (Or.inl ⟨hm, h0, h1, h2, h3⟩)]
  · intro hm h0 h1 h2 h20
    rw [versionSwitch_minor _ _ _ (Or.inr ⟨hm, h0, h1, h2, h20⟩)]
  · intro hl
    obtain ⟨label, hne, heq⟩ := versionSwitch_listed _ _ (bitField n 17 32) hl
    exact ⟨label, hne, by rw [heq]⟩
  · constructor
    · rintro ⟨label, err, he⟩ hl
      obtain ⟨label2, _, heq⟩ := versionSwitch_listed _ _ (bitField n 17 32) hl
      rw [heq] at he
      cases he
    · intro hl
      rcases not_listed_cases _ _ hl with ⟨h8, h14, h15⟩ | hm
      · exact ⟨_, _, by rw [versionSwitch_major _ _ _ h8 h14 h15]⟩
      · exact ⟨_, _, by rw [versionSwitch_minor _ _ _ hm]⟩

/-- The token `02400000` has major 9: the decode fails with "unknown major
version"; the pair (9, 0) is unlisted. -/
theorem exchangeVersion_unlisted_witness :
    bitField 0x02400000 4 10 = 9 ∧ ¬ listed 9 0 ∧
    exchangeVersion (str "02400000")
      = some (str "", some (.errorsNew "unknown major version")) :=
  ⟨by decide, by decide,
    (exchangeVersion_unlisted (str "02400000") 0x02400000 (by decide)).1
      (by decide) (by decide) (by decide)⟩

/-- C4: `exchangeVersion` returns the error of the parse step and the empty
label for every token that is empty, contains a byte that is no hexadecimal
digit, or denotes a value of at least 2^32; for every non-empty token of
hexadecimal digits with value below 2^32 the parse step succeeds with that
value. A sign, a `0x` head and the numeral `100000000` are rejected. -/
theorem exchangeVersion_decode_error (s : GoString) :
    (s = [] ∨ ¬ allHex s ∨ 2 ^ 32 ≤ hexValue s →
      ∃ err, (ParseUint s 16 32).2 = some err ∧
        exchangeVersion s = some (str "", some err)) ∧
    (s ≠ [] → allHex s → hexValue s < 2 ^ 32 → ParseUint s 16 32 = (hexValue s, none)) ∧
    exchangeVersion (str "") = some (str "", some (.syntaxError "ParseUint" (str ""))) ∧
    exchangeVersion (str "+1F") = some (str "", some (.syntaxError "ParseUint" (str "+1F"))) ∧
    exchangeVersion (str "-1F") = some (str "", some (.syntaxError "ParseUint" (str "-1F"))) ∧
    exchangeVersion (str "0x1F") = some (str "", some (.syntaxError "ParseUint" (str "0x1F"))) ∧
    exchangeVersion (str "100000000")
      = some (str "", some (.rangeError "ParseUint" (str "100000000"))) := by
  refine ⟨?_, ?_, by decide, by decide, by decide, by decide, by decide⟩
  · intro h
    have hn : ¬ (s ≠ [] ∧ allHex s ∧ hexValue s < 2 ^ 32) := by
      rintro ⟨h1, h2, h3⟩
      rcases h with h | h | h
      · exact h1 h
      · exact h h2
      · omega
    obtain ⟨e, he⟩ := (ParseUint_hex s).2 hn
    refine ⟨e, he, ?_⟩
    unfold exchangeVersion
    rcases hp : ParseUint s 16 32 with ⟨v, err⟩
    rw [hp] at he
    simp only at he
    subst he
    rfl
  · intro h1 h2 h3
    exact (ParseUint_hex s).1 ⟨h1, h2, h3⟩

/-- The token `FFFFFFFFF` (nine digits) denotes 2^36 - 1: the decode returns
the range error of the parse step; `ffffffff` parses as 2^32 - 1. -/
theorem exchangeVersion_decode_error_witness :
    (∃ err, (ParseUint (str "FFFFFFFFF") 16 32).2 = some err ∧
      exchangeVersion (str "FFFFFFFFF") = some (str "", some err)) ∧
    ParseUint (str "ffffffff") 16 32 = (hexValue (str "ffffffff"), none) :=
  ⟨(exchangeVersion_decode_error (str "FFFFFFFFF")).1 (Or.inr (Or.inr (by decide))),
   (exchangeVersion_decode_error (str "ffffffff")).2.1 (by decide) (by decide) (by decide)⟩

/-! ## `parseResponse` -/

theorem indexFuncFrom_none {α : Type} (f : α → Bool) : ∀ (s : List α) (i : Nat),
    s.find? f = none → indexFuncFrom f s i = -1 := by
  intro s
  induction s with
  | nil => intro i _; rfl
  | cons x rest ih =>
    intro i h
    rw [List.find?_cons] at h
    cases hx : f x with
    | true => rw [hx] at h; cases h
    | false =>
      rw [hx] at h
      simp only [indexFuncFrom, hx]
      exact ih (i + 1) h

theorem indexFuncFrom_some {α : Type} (f : α → Bool) : ∀ (s : List α) (i : Nat) (p : α),
    s.find? f = some p →
    ∃ k, indexFuncFrom f s i = ((i + k : Nat) : Int) ∧ s[k]? = some p := by
  intro s
  induction s with
  | nil => intro i p h; cases h
  | cons x rest ih =>
    intro i p h
    rw [List.find?_cons] at h
    cases hx : f x with
    | true =>
      rw [hx] at h
      refine ⟨0, ?_, ?_⟩
      · simp [indexFuncFrom, hx]
      · simpa using h
    | false =>
      rw [hx] at h
      obtain ⟨k, hk, hp⟩ := ih (i + 1) p h
      refine ⟨k + 1, ?_, ?_⟩
      · rw [indexFuncFrom, hx, if_neg (by simp), hk]
        congr 1
        omega
      · simpa using hp

theorem IndexFunc_none {α : Type} (f : α → Bool) (s : List α) (h : s.find? f = none) :
    IndexFunc s f = -1 := indexFuncFrom_none f s 0 h

theorem IndexFunc_some {α : Type} (f : α → Bool) (s : List α) (p : α)
    (h : s.find? f = some p) :
    ¬ IndexFunc s f < 0 ∧ index s (IndexFunc s f) = some p := by
  obtain ⟨k, hk, hp⟩ := indexFuncFrom_some f s 0 p h
  unfold IndexFunc
  rw [hk]
  constructor
  · omega
  · unfold index
    rw [if_pos (by omega)]
    simpa using hp

theorem exchangeVersion_total (rawHex : GoString) : ∃ r, exchangeVersion rawHex = some r := by
  rcases hp : ParseUint rawHex 16 32 with ⟨n, err⟩
  cases err with
  | none => exact ⟨_, exchangeVersion_fields rawHex n hp⟩
  | some e => exact ⟨(str "", some e), by unfold exchangeVersion; rw [hp]⟩

/-- The outcome of `parseResponse` on a decoded document, in terms of the
first `EXCH` and first `EXPR` record. -/
theorem parseResponse_eq (unmarshal : Unmarshal) (body : GoString)
    (protocols : List AutoDiscoveryProtocol) (hu : unmarshal body = .ok ⟨protocols⟩) :
    parseResponse unmarshal body =
      match firstOfType "EXCH" protocols with
      | none => some (DiscoveredInfo.zero,
          some (.errorsNew "failed to find Exchange protocol in response"))
      | some p =>
        if p.EwsUrl = str "" then
          match firstOfType "EXPR" protocols with
          | none => some (DiscoveredInfo.zero,
              some (.errorsNew "failed to find Express protocol in response"))
          | some q => parseResponseTail q.EwsUrl p.ServerVersion
        else parseResponseTail p.EwsUrl p.ServerVersion := by
  unfold parseResponse
  rw [hu]
  simp only []
  cases h1 : firstOfType "EXCH" protocols with
  | none =>
    rw [IndexFunc_none _ _ h1]
    simp
  | some p =>
    obtain ⟨a, b⟩ := IndexFunc_some _ _ p h1
    rw [if_neg a, b]
    simp only []
    by_cases hurl : p.EwsUrl = str ""
    · rw [if_pos hurl, if_pos hurl]
      cases h2 : firstOfType "EXPR" protocols with
      | none =>
        rw [IndexFunc_none _ _ h2]
        simp
      | some q =>
        obtain ⟨c, d⟩ := IndexFunc_some _ _ q h2
        rw [if_neg c, d]
    · rw [if_neg hurl, if_neg hurl]

theorem firstOfType_none_iff (t : String) (protocols : List AutoDiscoveryProtocol) :
    firstOfType t protocols = none ↔ ∀ r ∈ protocols, r.Type_ ≠ str t := by
  simp [firstOfType]

theorem parseResponseTail_ok (ewsUrl rawVersion label : GoString)
    (hv : exchangeVersion rawVersion = some (label, none)) :
    parseResponseTail ewsUrl rawVersion = some (⟨ewsUrl, label⟩, none) := by
  unfold parseResponseTail
  rw [hv]

theorem parseResponseTail_err (ewsUrl rawVersion label : GoString) (err : GoError)
    (hv : exchangeVersion rawVersion = some (label, some err)) :
    parseResponseTail ewsUrl rawVersion = some (DiscoveredInfo.zero, some err) := by
  unfold parseResponseTail
  rw [hv]

theorem parseResponseTail_success (ewsUrl rawVersion : GoString) (info : DiscoveredInfo)
    (h : parseResponseTail ewsUrl rawVersion = some (info, none)) :
    info.EWSUrl = ewsUrl ∧ exchangeVersion rawVersion = some (info.ExchangeVersion, none) := by
  unfold parseResponseTail at h
  rcases hv : exchangeVersion rawVersion with _ | ⟨label, _ | err⟩
  · rw [hv] at h; cases h
  · rw [hv] at h
    simp only [Option.some.injEq, Prod.mk.injEq, and_true] at h
    subst h
    exact ⟨rfl, rfl⟩
  · rw [hv] at h
    simp at h

/-- C5: when the first `EXCH` record of the decoded document has a non-empty
`EwsUrl` and its `ServerVersion` token decodes to `label`, `parseResponse`
returns that record's `EwsUrl` with `label` and no error, whatever other
records the document holds and in whatever order. -/
theorem parseResponse_exch_url (unmarshal : Unmarshal) (body : GoString)
    (protocols : List AutoDiscoveryProtocol) (hu : unmarshal body = .ok ⟨protocols⟩)
    (p : AutoDiscoveryProtocol) (hp : firstOfType "EXCH" protocols = some p)
    (hurl : p.EwsUrl ≠ str "") (label : GoString)
    (hv : exchangeVersion p.ServerVersion = some (label, none)) :
    parseResponse unmarshal body
      = some ({ EWSUrl := p.EwsUrl, ExchangeVersion := label }, none) := by
  rw [parseResponse_eq unmarshal body protocols hu, hp]
  simp only []
  rw [if_neg hurl, parseResponseTail_ok _ _ _ hv]

/-- A document whose `EXPR` record, with another URL, precedes the `EXCH`
record with token `73C1840A` and the EWS URL: the `EXCH` URL and
`Exchange2016` are returned. -/
theorem parseResponse_exch_url_witness :
    parseResponse
        (fun _ => .ok ⟨[⟨str "EXPR", str "", str "https://other.example/EWS/Exchange.asmx"⟩,
          ⟨str "EXCH", str "73C1840A", str "https://outlook.msxfaq.net/EWS/Exchange.asmx"⟩]⟩)
        (str "<Autodiscover/>")
      = some ({ EWSUrl := str "https://outlook.msxfaq.net/EWS/Exchange.asmx",
                ExchangeVersion := str "Exchange2016" }, none) :=
  parseResponse_exch_url _ (str "<Autodiscover/>") _ rfl
    ⟨str "EXCH", str "73C1840A", str "https://outlook.msxfaq.net/EWS/Exchange.asmx"⟩
    (by decide) (by decide) (str "Exchange2016") (by decide)

theorem firstOfType_map_version (t : String) (f : AutoDiscoveryProtocol → GoString)
    (c : AutoDiscoveryProtocol → Bool) (protocols : List AutoDiscoveryProtocol) :
    firstOfType t (protocols.map fun r => if c r then { r with ServerVersion := f r } else r)
      = (firstOfType t protocols).map
          fun r => if c r then { r with ServerVersion := f r } else r := by
  unfold firstOfType
  rw [List.find?_map]
  congr 1
  congr 1
  funext r
  simp only [Function.comp]
  split <;> rfl

/-- C6: when the first `EXCH` record has an empty `EwsUrl` and the first `EXPR`
record is `q`, a successful `parseResponse` returns `q.EwsUrl` together with
the decoding of the `EXCH` record's `ServerVersion` token (and does succeed
whenever that token decodes); rewriting the `ServerVersion` of the `EXPR`
records in any way does not change the result. -/
theorem parseResponse_expr_fallback (unmarshal : Unmarshal) (body : GoString)
    (protocols : List AutoDiscoveryProtocol) (hu : unmarshal body = .ok ⟨protocols⟩)
    (p q : AutoDiscoveryProtocol) (hp : firstOfType "EXCH" protocols = some p)
    (hurl : p.EwsUrl = str "") (hq : firstOfType "EXPR" protocols = some q) :
    (∀ info, parseResponse unmarshal body = some (info, none) →
      info.EWSUrl = q.EwsUrl ∧
      exchangeVersion p.ServerVersion = some (info.ExchangeVersion, none)) ∧
    (∀ label, exchangeVersion p.ServerVersion = some (label, none) →
      parseResponse unmarshal body
        = some ({ EWSUrl := q.EwsUrl, ExchangeVersion := label }, none)) ∧
    (∀ (f : AutoDiscoveryProtocol → GoString) (unmarshal2 : Unmarshal) (body2 : GoString),
      unmarshal2 body2 = .ok ⟨protocols.map fun r =>
        if r.Type_ == str "EXPR" then { r with ServerVersion := f r } else r⟩ →
      parseResponse unmarshal2 body2 = parseResponse unmarshal body) := by
  have heq := parseResponse_eq unmarshal body protocols hu
  rw [hp] at heq
  simp only [] at heq
  rw [if_pos hurl, hq] at heq
  simp only [] at heq
  refine ⟨?_, ?_, ?_⟩
  · intro info hinfo
    rw [heq] at hinfo
    exact parseResponseTail_success _ _ _ hinfo
  · intro label hv
    rw [heq, parseResponseTail_ok _ _ _ hv]
  · intro f unmarshal2 body2 hu2
    rw [parseResponse_eq unmarshal2 body2 _ hu2, heq,
      firstOfType_map_version "EXCH" f, firstOfType_map_version "EXPR" f, hp, hq]
    have hpt : p.Type_ = str "EXCH" := by
      have := List.find?_some hp
      simpa using this
    have hqt : q.Type_ = str "EXPR" := by
      have := List.find?_some hq
      simpa using this
    have hne : (p.Type_ == str "EXPR") = false := by
      rw [hpt]; decide
    have heq2 : (q.Type_ == str "EXPR") = true := by
      rw [hqt]; decide
    simp only [Option.map_some', hne, heq2, if_true, Bool.false_eq_true, if_false]
    rw [if_pos hurl]

/-- The response document of `TestParseResponse`: the URL comes from the
`EXPR` record, the version from the `EXCH` record. -/
theorem parseResponse_expr_fallback_witness :
    parseResponse (fun _ => .ok ⟨testDocumentProtocols⟩) (str "<Autodiscover/>")
      = some ({ EWSUrl := str "https://outlook.msxfaq.net/EWS/Exchange.asmx",
                ExchangeVersion := str "Exchange2016" }, none) :=
  (parseResponse_expr_fallback (fun _ => .ok ⟨testDocumentProtocols⟩) (str "<Autodiscover/>")
    testDocumentProtocols rfl
    ⟨str "EXCH", str "73C1840A", str ""⟩
    ⟨str "EXPR", str "", str "https://outlook.msxfaq.net/EWS/Exchange.asmx"⟩
    (by decide) (by decide) (by decide)).2.1 (str "Exchange2016") (by decide)

/-- C7: `parseResponse` returns an error and the zero `DiscoveredInfo` when the
decoded document holds no record of type `EXCH`, and when its first `EXCH`
record has an empty `EwsUrl` and it holds no record of type `EXPR`; the
`ServerVersion` tokens play no part. -/
theorem parseResponse_missing_record (unmarshal : Unmarshal) (body : GoString)
    (protocols : List AutoDiscoveryProtocol) (hu : unmarshal body = .ok ⟨protocols⟩) :
    ((∀ r ∈ protocols, r.Type_ ≠ str "EXCH") →
      parseResponse unmarshal body = some (DiscoveredInfo.zero,
        some (.errorsNew "failed to find Exchange protocol in response"))) ∧
    (∀ p, firstOfType "EXCH" protocols = some p → p.EwsUrl = str "" →
      (∀ r ∈ protocols, r.Type_ ≠ str "EXPR") →
      parseResponse unmarshal body = some (DiscoveredInfo.zero,
        some (.errorsNew "failed to find Express protocol in response"))) := by
  have heq := parseResponse_eq unmarshal body protocols hu
  constructor
  · intro h
    rw [heq, (firstOfType_none_iff "EXCH" protocols).2 h]
  · intro p hp hurl h
    rw [heq, hp]
    simp only []
    rw [if_pos hurl, (firstOfType_none_iff "EXPR" protocols).2 h]

/-- The empty document, and a document with a single `EXCH` record that has a
valid token and no URL. -/
theorem parseResponse_missing_record_witness :
    parseResponse (fun _ => .ok ⟨[]⟩) (str "<Autodiscover/>")
      = some (DiscoveredInfo.zero,
          some (.errorsNew "failed to find Exchange protocol in response")) ∧
    parseResponse (fun _ => .ok ⟨[⟨str "EXCH", str "73C1840A", str ""⟩]⟩)
        (str "<Autodiscover/>")
      = some (DiscoveredInfo.zero,
          some (.errorsNew "failed to find Express protocol in response")) :=
  ⟨(parseResponse_missing_record (fun _ => .ok ⟨[]⟩) (str "<Autodiscover/>") [] rfl).1
      (by decide),
   (parseResponse_missing_record (fun _ => .ok ⟨[⟨str "EXCH", str "73C1840A", str ""⟩]⟩)
      (str "<Autodiscover/>") [⟨str "EXCH", str "73C1840A", str ""⟩] rfl).2
      ⟨str "EXCH", str "73C1840A", str ""⟩ (by decide) (by decide) (by decide)⟩

/-- C8: when `exchangeVersion` fails on the `ServerVersion` token of the first
`EXCH` record, `parseResponse` fails, and once a URL source exists (a
non-empty `EwsUrl` on that record, or an `EXPR` record) its error is the
error of `exchangeVersion`; `parseResponse` succeeds exactly when a first
`EXCH` record exists, a URL source exists and the token decodes. -/
theorem parseResponse_decode_failure (unmarshal : Unmarshal) (body : GoString)
    (protocols : List AutoDiscoveryProtocol) (hu : unmarshal body = .ok ⟨protocols⟩) :
    (∀ p label err, firstOfType "EXCH" protocols = some p →
      exchangeVersion p.ServerVersion = some (label, some err) →
      (∃ e, parseResponse unmarshal body = some (DiscoveredInfo.zero, some e)) ∧
      (p.EwsUrl ≠ str "" ∨ (firstOfType "EXPR" protocols).isSome →
        parseResponse unmarshal body = some (DiscoveredInfo.zero, some err))) ∧
    ((∃ info, parseResponse unmarshal body = some (info, none)) ↔
      ∃ p, firstOfType "EXCH" protocols = some p ∧
        (p.EwsUrl ≠ str "" ∨ (firstOfType "EXPR" protocols).isSome) ∧
        ∃ label, exchangeVersion p.ServerVersion = some (label, none)) := by
  have heq := parseResponse_eq unmarshal body protocols hu
  constructor
  · intro p label err hp hv
    rw [heq, hp]
    simp only []
    by_cases hurl : p.EwsUrl = str ""
    · rw [if_pos hurl]
      cases hq : firstOfType "EXPR" protocols with
      | none =>
        refine ⟨⟨_, rfl⟩, ?_⟩
        rintro (h | h)
        · exact absurd hurl h
        · cases h
      | some q =>
        simp only []
        rw [parseResponseTail_err _ _ _ _ hv]
        exact ⟨⟨_, rfl⟩, fun _ => rfl⟩
    · rw [if_neg hurl, parseResponseTail_err _ _ _ _ hv]
      exact ⟨⟨_, rfl⟩, fun _ => rfl⟩
  · rw [heq]
    constructor
    · rintro ⟨info, hinfo⟩
      cases hp : firstOfType "EXCH" protocols with
      | none => rw [hp] at hinfo; simp at hinfo
      | some p =>
        rw [hp] at hinfo
        simp only [] at hinfo
        refine ⟨p, rfl, ?_⟩
        by_cases hurl : p.EwsUrl = str ""
        · rw [if_pos hurl] at hinfo
          cases hq : firstOfType "EXPR" protocols with
          | none => rw [hq] at hinfo; simp at hinfo
          | some q =>
            rw [hq] at hinfo
            exact ⟨Or.inr rfl, _, (parseResponseTail_success _ _ _ hinfo).2⟩
        · rw [if_neg hurl] at hinfo
          exact ⟨Or.inl hurl, _, (parseResponseTail_success _ _ _ hinfo).2⟩
    · rintro ⟨p, hp, hsrc, label, hv⟩
      rw [hp]
      simp only []
      by_cases hurl : p.EwsUrl = str ""
      · rw [if_pos hurl]
        rcases hsrc with h | h
        · exact absurd hurl h
        · cases hq : firstOfType "EXPR" protocols with
          | none => rw [hq] at h; cases h
          | some q => exact ⟨_, parseResponseTail_ok _ _ _ hv⟩
      · rw [if_neg hurl]
        exact ⟨_, parseResponseTail_ok _ _ _ hv⟩

/-- An `EXCH` record with an EWS URL and an empty version token: the parse
fails with the syntax error of the token's decoding. -/
theorem parseResponse_decode_failure_witness :
    parseResponse
        (fun _ => .ok ⟨[⟨str "EXCH", str "", str "https://outlook.msxfaq.net/EWS/Exchange.asmx"⟩]⟩)
        (str "<Autodiscover/>")
      = some (DiscoveredInfo.zero, some (.syntaxError "ParseUint" (str ""))) :=
  ((parseResponse_decode_failure _ (str "<Autodiscover/>")
      [⟨str "EXCH", str "", str "https://outlook.msxfaq.net/EWS/Exchange.asmx"⟩] rfl).1
    ⟨str "EXCH", str "", str "https://outlook.msxfaq.net/EWS/Exchange.asmx"⟩
    (str "") (.syntaxError "ParseUint" (str "")) (by decide) (by decide)).2
    (Or.inl (by decide))

/-! ## UTF-8: the encoder of `String.toUTF8` against `DecodeRuneInString` -/

theorem u8_toNat_and (a b : UInt8) : (a &&& b).toNat = a.toNat &&& b.toNat := by
  show (a.toBitVec &&& b.toBitVec).toNat = _
  exact BitVec.toNat_and _ _

theorem u8_toNat_or (a b : UInt8) : (a ||| b).toNat = a.toNat ||| b.toNat := by
  show (a.toBitVec ||| b.toBitVec).toNat = _
  exact BitVec.toNat_or _ _

theorem u32_toUInt8_toNat (v : UInt32) : v.toUInt8.toNat = v.toNat % 256 := by
  show (BitVec.ofNat 8 v.toNat).toNat = _
  simp

theorem u32_shr6 (v : UInt32) : (v >>> 6).toNat = v.toNat / 64 := by
  show (v.toBitVec >>> ((6 : UInt32).mod 32).toBitVec).toNat = _
  have : ((6 : UInt32).mod 32).toBitVec = 6#32 := by decide
  rw [this]
  simp [Nat.shiftRight_eq_div_pow]
  rfl

theorem u32_shr12 (v : UInt32) : (v >>> 12).toNat = v.toNat / 4096 := by
  show (v.toBitVec >>> ((12 : UInt32).mod 32).toBitVec).toNat = _
  have : ((12 : UInt32).mod 32).toBitVec = 12#32 := by decide
  rw [this]
  simp [Nat.shiftRight_eq_div_pow]
  rfl

theorem u32_shr18 (v : UInt32) : (v >>> 18).toNat = v.toNat / 262144 := by
  show (v.toBitVec >>> ((18 : UInt32).mod 32).toBitVec).toNat = _
  have : ((18 : UInt32).mod 32).toBitVec = 18#32 := by decide
  rw [this]
  simp [Nat.shiftRight_eq_div_pow]
  rfl

set_option maxRecDepth 100000 in
theorem byte_masks : ∀ y < 256,
    ((y &&& 63) ||| 128 = 128 + y % 64) ∧ ((y &&& 31) ||| 192 = 192 + y % 32) ∧
    ((y &&& 15) ||| 224 = 224 + y % 16) ∧ ((y &&& 7) ||| 240 = 240 + y % 8) ∧
    (y &&& 63 = y % 64) ∧ (y &&& 31 = y % 32) ∧ (y &&& 15 = y % 16) ∧ (y &&& 7 = y % 8) := by
  decide

theorem contByte_toNat (x : UInt32) : (x.toUInt8 &&& 63 ||| 128).toNat = 128 + x.toNat % 64 := by
  rw [u8_toNat_or, u8_toNat_and, u32_toUInt8_toNat]
  have := (byte_masks (x.toNat % 256) (Nat.mod_lt _ (by norm_num))).1
  have e1 : (63 : UInt8).toNat = 63 := rfl
  have e2 : (128 : UInt8).toNat = 128 := rfl
  rw [e1, e2, this]
  omega

theorem lead2_toNat (x : UInt32) : (x.toUInt8 &&& 31 ||| 192).toNat = 192 + x.toNat % 32 := by
  rw [u8_toNat_or, u8_toNat_and, u32_toUInt8_toNat]
  have := (byte_masks (x.toNat % 256) (Nat.mod_lt _ (by norm_num))).2.1
  have e1 : (31 : UInt8).toNat = 31 := rfl
  have e2 : (192 : UInt8).toNat = 192 := rfl
  rw [e1, e2, this]
  omega

theorem lead3_toNat (x : UInt32) : (x.toUInt8 &&& 15 ||| 224).toNat = 224 + x.toNat % 16 := by
  rw [u8_toNat_or, u8_toNat_and, u32_toUInt8_toNat]
  have := (byte_masks (x.toNat % 256) (Nat.mod_lt _ (by norm_num))).2.2.1
  have e1 : (15 : UInt8).toNat = 15 := rfl
  have e2 : (224 : UInt8).toNat = 224 := rfl
  rw [e1, e2, this]
  omega

theorem lead4_toNat (x : UInt32) : (x.toUInt8 &&& 7 ||| 240).toNat = 240 + x.toNat % 8 := by
  rw [u8_toNat_or, u8_toNat_and, u32_toUInt8_toNat]
  have := (byte_masks (x.toNat % 256) (Nat.mod_lt _ (by norm_num))).2.2.2.1
  have e1 : (7 : UInt8).toNat = 7 := rfl
  have e2 : (240 : UInt8).toNat = 240 := rfl
  rw [e1, e2, this]
  omega

/-- The bytes `String.utf8EncodeChar` produces, as numbers. -/
theorem utf8EncodeChar_toNat (c : Char) :
    (String.utf8EncodeChar c).map UInt8.toNat =
      if c.val.toNat ≤ 127 then [c.val.toNat]
      else if c.val.toNat ≤ 2047 then [192 + c.val.toNat / 64 % 32, 128 + c.val.toNat % 64]
      else if c.val.toNat ≤ 65535 then
        [224 + c.val.toNat / 4096 % 16, 128 + c.val.toNat / 64 % 64, 128 + c.val.toNat % 64]
      else
        [240 + c.val.toNat / 262144 % 8, 128 + c.val.toNat / 4096 % 64,
          128 + c.val.toNat / 64 % 64, 128 + c.val.toNat % 64] := by
  unfold String.utf8EncodeChar
  simp only []
  have le_iff : ∀ k : UInt32, (c.val ≤ k) = (c.val.toNat ≤ k.toNat) := fun _ => rfl
  have k1 : (127 : UInt32).toNat = 127 := rfl
  have k2 : (2047 : UInt32).toNat = 2047 := rfl
  have k3 : (65535 : UInt32).toNat = 65535 := rfl
  simp only [le_iff, k1, k2, k3]
  split
  · rename_i h
    simp only [List.map, u32_toUInt8_toNat]
    congr 1
    omega
  · split
    · simp only [List.map, contByte_toNat, lead2_toNat, u32_shr6]
    · split
      · simp only [List.map, contByte_toNat, lead3_toNat, u32_shr6, u32_shr12]
      · simp only [List.map, contByte_toNat, lead4_toNat, u32_shr6, u32_shr12, u32_shr18]

set_option maxRecDepth 100000 in
/-- The entries of `utf8.first` for ASCII bytes and for the first byte of a
two-byte sequence. -/
theorem utf8First_short : ∀ b < 256,
    (b < 0x80 → utf8First b = 0xF0) ∧ (0xC2 ≤ b → b < 0xE0 → utf8First b = 0x02) := by
  decide

set_option maxRecDepth 100000 in
/-- The entries of `utf8.first` for the first byte of a three-byte sequence. -/
theorem utf8First_three : ∀ b < 256,
    (b = 0xE0 → utf8First b = 0x13) ∧
    (0xE1 ≤ b → b < 0xF0 → b ≠ 0xED → utf8First b = 0x03) ∧
    (b = 0xED → utf8First b = 0x23) := by
  decide

set_option maxRecDepth 100000 in
/-- The entries of `utf8.first` for the first byte of a four-byte sequence. -/
theorem utf8First_four : ∀ b < 256,
    (b = 0xF0 → utf8First b = 0x34) ∧
    (0xF1 ≤ b → b < 0xF4 → utf8First b = 0x04) ∧
    (b = 0xF4 → utf8First b = 0x44) := by
  decide

theorem decode_width1 (b0 : UInt8) (rest : GoString) (h : b0.toNat ≤ 127) :
    DecodeRuneInString (b0 :: rest) = (b0.toNat, 1) := by
  have hx : utf8First b0.toNat = 0xF0 :=
    (utf8First_short b0.toNat (UInt8.toNat_lt b0)).1 (by omega)
  simp only [DecodeRuneInString, hx]
  rw [if_pos (by decide), if_neg (by decide)]

theorem decode_width2 (b0 b1 : UInt8) (rest : GoString) (v : Nat)
    (hlo : 128 ≤ v) (hhi : v ≤ 2047)
    (h0 : b0.toNat = 192 + v / 64 % 32) (h1 : b1.toNat = 128 + v % 64) :
    DecodeRuneInString (b0 :: b1 :: rest) = (v, 2) := by
  have hx : utf8First b0.toNat = 0x02 :=
    (utf8First_short b0.toNat (UInt8.toNat_lt b0)).2 (by omega) (by omega)
  have m0 := (byte_masks b0.toNat (UInt8.toNat_lt b0)).2.2.2.2.2.1
  have m1 := (byte_masks b1.toNat (UInt8.toNat_lt b1)).2.2.2.2.1
  have e1 : (2 : Nat) &&& 7 = 2 := by decide
  have e2 : (2 : Nat) >>> 4 = 0 := by decide
  simp only [DecodeRuneInString, hx, e1, e2, acceptRanges, List.getD_cons_succ,
    List.getD_cons_zero, List.length_cons]
  rw [if_neg (by decide), if_neg (by omega), if_neg (by omega), if_pos (by omega), m0, m1,
    Nat.shiftLeft_eq]
  have hor := Nat.mul_add_lt_is_or (i := 6) (b := b1.toNat % 64)
    (Nat.mod_lt _ (by norm_num)) (b0.toNat % 32)
  rw [Nat.mul_comm, ← hor]
  congr 1
  omega

theorem decode_width3_raw (b0 b1 b2 : UInt8) (rest : GoString) (x lo hi : Nat)
    (hx : utf8First b0.toNat = x) (hx1 : ¬ x ≥ 0xF0) (hsz : x &&& 7 = 3)
    (hacc : acceptRanges (x >>> 4) = (lo, hi))
    (h1 : lo ≤ b1.toNat ∧ b1.toNat ≤ hi) (h2 : 0x80 ≤ b2.toNat ∧ b2.toNat ≤ 0xBF) :
    DecodeRuneInString (b0 :: b1 :: b2 :: rest)
      = ((b0.toNat % 16) * 4096 + (b1.toNat % 64) * 64 + b2.toNat % 64, 3) := by
  have m0 := (byte_masks b0.toNat (UInt8.toNat_lt b0)).2.2.2.2.2.2.1
  have m1 := (byte_masks b1.toNat (UInt8.toNat_lt b1)).2.2.2.2.1
  have m2 := (byte_masks b2.toNat (UInt8.toNat_lt b2)).2.2.2.2.1
  simp only [DecodeRuneInString, hx, hsz, hacc, List.getD_cons_succ,
    List.getD_cons_zero, List.length_cons]
  have c1 : ¬ (3 + 0 < 3) := by omega
  have c2 : ¬ (b1.toNat < lo ∨ hi < b1.toNat) := by omega
  have c3 : ¬ (3 ≤ 2) := by omega
  have c4 : ¬ (b2.toNat < 128 ∨ 191 < b2.toNat) := by omega
  simp only [Nat.add_zero] at c1
  simp only [hx1, c2, c3, c4, if_false, Nat.le_refl, if_true, m0, m1, m2, Nat.shiftLeft_eq]
  rw [if_neg (by omega)]
  have hb1 : b1.toNat % 64 < 64 := Nat.mod_lt _ (by norm_num)
  have hor1 := Nat.mul_add_lt_is_or (i := 12) (b := b1.toNat % 64 * 2 ^ 6)
    (by omega) (b0.toNat % 16)
  have hor2 := Nat.mul_add_lt_is_or (i := 6) (b := b2.toNat % 64)
    (Nat.mod_lt _ (by norm_num)) (b0.toNat % 16 * 64 + b1.toNat % 64)
  rw [Nat.mul_comm (b0.toNat % 16) (2 ^ 12), ← hor1]
  have e : 2 ^ 12 * (b0.toNat % 16) + b1.toNat % 64 * 2 ^ 6
      = 2 ^ 6 * (b0.toNat % 16 * 64 + b1.toNat % 64) := by omega
  rw [e, ← hor2]
  congr 1
  omega

theorem decode_width4_raw (b0 b1 b2 b3 : UInt8) (rest : GoString) (x lo hi : Nat)
    (hx : utf8First b0.toNat = x) (hx1 : ¬ x ≥ 0xF0) (hsz : x &&& 7 = 4)
    (hacc : acceptRanges (x >>> 4) = (lo, hi))
    (h1 : lo ≤ b1.toNat ∧ b1.toNat ≤ hi) (h2 : 0x80 ≤ b2.toNat ∧ b2.toNat ≤ 0xBF)
    (h3 : 0x80 ≤ b3.toNat ∧ b3.toNat ≤ 0xBF) :
    DecodeRuneInString (b0 :: b1 :: b2 :: b3 :: rest)
      = ((b0.toNat % 8) * 262144 + (b1.toNat % 64) * 4096 + (b2.toNat % 64) * 64
          + b3.toNat % 64, 4) := by
  have m0 := (byte_masks b0.toNat (UInt8.toNat_lt b0)).2.2.2.2.2.2.2
  have m1 := (byte_masks b1.toNat (UInt8.toNat_lt b1)).2.2.2.2.1
  have m2 := (byte_masks b2.toNat (UInt8.toNat_lt b2)).2.2.2.2.1
  have m3 := (byte_masks b3.toNat (UInt8.toNat_lt b3)).2.2.2.2.1
  simp only [DecodeRuneInString, hx, hsz, hacc, List.getD_cons_succ,
    List.getD_cons_zero, List.length_cons]
  have c2 : ¬ (b1.toNat < lo ∨ hi < b1.toNat) := by omega
  have c3 : ¬ (4 ≤ 2) := by omega
  have c4 : ¬ (b2.toNat < 128 ∨ 191 < b2.toNat) := by omega
  have c5 : ¬ (4 ≤ 3) := by omega
  have c6 : ¬ (b3.toNat < 128 ∨ 191 < b3.toNat) := by omega
  simp only [hx1, c2, c3, c4, c5, c6, if_false, m0, m1, m2, m3, Nat.shiftLeft_eq]
  rw [if_neg (by omega)]
  have hb1 : b1.toNat % 64 < 64 := Nat.mod_lt _ (by norm_num)
  have hb2 : b2.toNat % 64 < 64 := Nat.mod_lt _ (by norm_num)
  have hor1 := Nat.mul_add_lt_is_or (i := 18) (b := b1.toNat % 64 * 2 ^ 12)
    (by omega) (b0.toNat % 8)
  have hor2 := Nat.mul_add_lt_is_or (i := 12) (b := b2.toNat % 64 * 2 ^ 6)
    (by omega) (b0.toNat % 8 * 64 + b1.toNat % 64)
  have hor3 := Nat.mul_add_lt_is_or (i := 6) (b := b3.toNat % 64)
    (Nat.mod_lt _ (by norm_num)) ((b0.toNat % 8 * 64 + b1.toNat % 64) * 64 + b2.toNat % 64)
  rw [Nat.mul_comm (b0.toNat % 8) (2 ^ 18), ← hor1]
  have e1 : 2 ^ 18 * (b0.toNat % 8) + b1.toNat % 64 * 2 ^ 12
      = 2 ^ 12 * (b0.toNat % 8 * 64 + b1.toNat % 64) := by omega
  rw [e1, ← hor2]
  have e2 : 2 ^ 12 * (b0.toNat % 8 * 64 + b1.toNat % 64) + b2.toNat % 64 * 2 ^ 6
      = 2 ^ 6 * ((b0.toNat % 8 * 64 + b1.toNat % 64) * 64 + b2.toNat % 64) := by omega
  rw [e2, ← hor3]
  congr 1
  omega

theorem decode_width3 (b0 b1 b2 : UInt8) (rest : GoString) (v : Nat)
    (hlo : 2048 ≤ v) (hhi : v ≤ 65535) (hsur : v < 0xD800 ∨ 0xDFFF < v)
    (h0 : b0.toNat = 224 + v / 4096 % 16) (h1 : b1.toNat = 128 + v / 64 % 64)
    (h2 : b2.toNat = 128 + v % 64) :
    DecodeRuneInString (b0 :: b1 :: b2 :: rest) = (v, 3) := by
  have hval : (b0.toNat % 16) * 4096 + (b1.toNat % 64) * 64 + b2.toNat % 64 = v := by omega
  obtain ⟨t13, t03, t23⟩ := utf8First_three b0.toNat (UInt8.toNat_lt b0)
  rw [← hval]
  by_cases ha0 : v / 4096 = 0
  · exact decode_width3_raw b0 b1 b2 rest 0x13 0xA0 0xBF (t13 (by omega)) (by decide)
      (by decide) (by decide) (by omega) (by omega)
  · by_cases ha13 : v / 4096 = 13
    · exact decode_width3_raw b0 b1 b2 rest 0x23 0x80 0x9F (t23 (by omega)) (by decide)
        (by decide) (by decide) (by omega) (by omega)
    · exact decode_width3_raw b0 b1 b2 rest 0x03 0x80 0xBF
        (t03 (by omega) (by omega) (by omega)) (by decide) (by decide) (by decide)
        (by omega) (by omega)

theorem decode_width4 (b0 b1 b2 b3 : UInt8) (rest : GoString) (v : Nat)
    (hlo : 65536 ≤ v) (hhi : v < 0x110000)
    (h0 : b0.toNat = 240 + v / 262144 % 8) (h1 : b1.toNat = 128 + v / 4096 % 64)
    (h2 : b2.toNat = 128 + v / 64 % 64) (h3 : b3.toNat = 128 + v % 64) :
    DecodeRuneInString (b0 :: b1 :: b2 :: b3 :: rest) = (v, 4) := by
  have hval : (b0.toNat % 8) * 262144 + (b1.toNat % 64) * 4096 + (b2.toNat % 64) * 64
      + b3.toNat % 64 = v := by omega
  obtain ⟨t34, t04, t44⟩ := utf8First_four b0.toNat (UInt8.toNat_lt b0)
  rw [← hval]
  by_cases ha0 : v / 262144 = 0
  · exact decode_width4_raw b0 b1 b2 b3 rest 0x34 0x90 0xBF (t34 (by omega)) (by decide)
      (by decide) (by decide) (by omega) (by omega) (by omega)
  · by_cases ha4 : v / 262144 = 4
    · exact decode_width4_raw b0 b1 b2 b3 rest 0x44 0x80 0x8F (t44 (by omega)) (by decide)
        (by decide) (by decide) (by omega) (by omega) (by omega)
    · exact decode_width4_raw b0 b1 b2 b3 rest 0x04 0x80 0xBF (t04 (by omega) (by omega))
        (by decide) (by decide) (by decide) (by omega) (by omega) (by omega)

theorem decode_encode (c : Char) (rest : GoString) :
    DecodeRuneInString (String.utf8EncodeChar c ++ rest)
      = (c.toNat, (String.utf8EncodeChar c).length) ∧
    ((String.utf8EncodeChar c).length = 1 → c.toNat ≤ 127) ∧
    1 ≤ (String.utf8EncodeChar c).length := by
  have hmap := utf8EncodeChar_toNat c
  have hvalid : c.val.toNat < 0xD800 ∨ (0xDFFF < c.val.toNat ∧ c.val.toNat < 0x110000) := c.valid
  show DecodeRuneInString (String.utf8EncodeChar c ++ rest)
      = (c.val.toNat, (String.utf8EncodeChar c).length) ∧
    ((String.utf8EncodeChar c).length = 1 → c.val.toNat ≤ 127) ∧
    1 ≤ (String.utf8EncodeChar c).length
  generalize c.val.toNat = v at hmap hvalid ⊢
  generalize String.utf8EncodeChar c = l at hmap ⊢
  split at hmap
  · rename_i h
    simp only [List.map_eq_cons_iff, List.map_eq_nil_iff] at hmap
    obtain ⟨b0, l1, rfl, h0, rfl⟩ := hmap
    refine ⟨?_, fun _ => h, by simp⟩
    rw [← h0] at h ⊢
    exact decode_width1 b0 rest h
  · split at hmap
    · simp only [List.map_eq_cons_iff, List.map_eq_nil_iff] at hmap
      obtain ⟨b0, l1, rfl, h0, b1, l2, rfl, h1, rfl⟩ := hmap
      refine ⟨?_, by simp, by simp⟩
      exact decode_width2 b0 b1 rest v (by omega) (by omega) h0 h1
    · split at hmap
      · simp only [List.map_eq_cons_iff, List.map_eq_nil_iff] at hmap
        obtain ⟨b0, l1, rfl, h0, b1, l2, rfl, h1, b2, l3, rfl, h2, rfl⟩ := hmap
        refine ⟨?_, by simp, by simp⟩
        exact decode_width3 b0 b1 b2 rest v (by omega) (by omega) (by omega) h0 h1 h2
      · simp only [List.map_eq_cons_iff, List.map_eq_nil_iff] at hmap
        obtain ⟨b0, l1, rfl, h0, b1, l2, rfl, h1, b2, l3, rfl, h2, b3, l4, rfl, h3, rfl⟩ := hmap
        refine ⟨?_, by simp, by simp⟩
        exact decode_width4 b0 b1 b2 b3 rest v (by omega) (by omega) h0 h1 h2 h3

theorem escapeOf_plain (c : Char) (w : Nat) (h : plainXmlChar c) (hw : w = 1 → c.toNat ≤ 127) :
    escapeOf c.toNat w = none := by
  obtain ⟨⟨h1, h2, h3, h4, h5⟩, hr⟩ := h
  have hin : isInCharacterRange c.toNat = true := by
    unfold isInCharacterRange
    simp only [Bool.or_eq_true, Bool.and_eq_true, beq_iff_eq, decide_eq_true_eq]
    omega
  unfold escapeOf
  rw [if_neg h4, if_neg h5, if_neg h1, if_neg h2, if_neg h3, if_neg (by omega),
    if_neg (by omega), if_neg (by omega), if_neg]
  rw [hin]
  simp only [Bool.not_true, Bool.false_eq_true, false_or, not_and]
  intro hfffd hw1
  have := hw hw1
  omega

theorem str_eq (s : String) : str s = s.data.flatMap String.utf8EncodeChar := rfl

theorem escapeLoop_plain : ∀ (cs : List Char), (∀ c ∈ cs, plainXmlChar c) →
    ∀ fuel, (cs.flatMap String.utf8EncodeChar).length ≤ fuel →
      escapeLoop fuel (cs.flatMap String.utf8EncodeChar) = cs.flatMap String.utf8EncodeChar := by
  intro cs
  induction cs with
  | nil =>
    intro _ fuel _
    cases fuel <;> simp [escapeLoop]
  | cons c cs ih =>
    intro hall fuel hfuel
    obtain ⟨hdec, hw1, hpos⟩ := decode_encode c (cs.flatMap String.utf8EncodeChar)
    rw [List.flatMap_cons] at hfuel ⊢
    rw [List.length_append] at hfuel
    obtain ⟨f, rfl⟩ : ∃ f, fuel = f + 1 := ⟨fuel - 1, by omega⟩
    have hne : String.utf8EncodeChar c ++ cs.flatMap String.utf8EncodeChar ≠ [] := by
      intro h0
      have := congrArg List.length h0
      rw [List.length_append, List.length_nil] at this
      omega
    rw [escapeLoop, if_neg hne, hdec]
    simp only []
    rw [escapeOf_plain c _ (hall c (List.mem_cons_self _ _)) hw1]
    simp only [List.take_left', List.drop_left']
    rw [ih (fun c hc => hall c (List.mem_cons_of_mem _ hc)) f (by omega)]

theorem EscapeString_plain (s : String) (h : ∀ c ∈ s.data, plainXmlChar c) :
    EscapeString (str s) = str s := by
  unfold EscapeString
  rw [str_eq]
  exact escapeLoop_plain s.data h _ (Nat.le_refl _)

/-! ## `requestBody` -/

set_option maxRecDepth 100000 in
theorem requestBody_eq (emailAddress : GoString) :
    requestBody emailAddress
      = (requestHead ++ EscapeString emailAddress ++ requestTail, none) := by
  have hschema : EscapeString
      (str "http://schemas.microsoft.com/exchange/autodiscover/outlook/responseschema/2006a")
      = str "http://schemas.microsoft.com/exchange/autodiscover/outlook/responseschema/2006a" :=
    EscapeString_plain _ (by decide)
  have hhead : str "<Autodiscover xmlns=\"http://schemas.microsoft.com/exchange/autodiscover/outlook/requestschema/2006\">"
      ++ str "<Request>" ++ str "<EMailAddress>" = requestHead := rfl
  have htail : str "</EMailAddress>" ++ (str "<AcceptableResponseSchema>"
      ++ (str "http://schemas.microsoft.com/exchange/autodiscover/outlook/responseschema/2006a"
      ++ (str "</AcceptableResponseSchema>" ++ (str "</Request>" ++ str "</Autodiscover>"))))
      = requestTail := rfl
  unfold requestBody marshalRequest
  simp only [hschema]
  rw [← hhead, ← htail]
  simp only [List.append_assoc]

/-- C9 as stated fails: the address `a\x01@b.c` holds none of the XML-special
bytes, yet `requestBody` writes U+FFFD in place of the control character
U+0001, so its output is not the address between the fixed head and tail. -/
theorem requestBody_control_char_replaced :
    noXmlSpecial (str "a\x01@b.c") ∧
    requestBody (str "a\x01@b.c")
      = (requestHead ++ str "a\uFFFD@b.c" ++ requestTail, none) ∧
    requestBody (str "a\x01@b.c") ≠ (requestHead ++ str "a\x01@b.c" ++ requestTail, none) := by
  refine ⟨by decide, ?_, ?_⟩
  · rw [requestBody_eq]
    have : EscapeString (str "a\x01@b.c") = str "a\uFFFD@b.c" := by decide
    rw [this]
  · rw [requestBody_eq]
    have : EscapeString (str "a\x01@b.c") = str "a\uFFFD@b.c" := by decide
    rw [this]
    decide

/-- C9 (amended): for every address that is well-formed UTF-8 text whose
characters lie in the XML character range U+0020-U+D7FF, U+E000-U+FFFD,
U+10000-U+10FFFF and are none of `&`, `<`, `>`, `"`, the apostrophe,
`requestBody` returns no error and exactly the fixed head up to
`<EMailAddress>`, the address, and the fixed tail from `</EMailAddress>`. -/
theorem requestBody_plain (s : String) (h : ∀ c ∈ s.data, plainXmlChar c) :
    requestBody (str s) = (requestHead ++ str s ++ requestTail, none) := by
  rw [requestBody_eq, EscapeString_plain s h]

set_option maxRecDepth 100000 in
/-- The address of `TestRequestBody` and the expected body of that test. -/
theorem requestBody_plain_witness :
    (∀ c ∈ "somebody@gmail.com".data, plainXmlChar c) ∧
    requestBody (str "somebody@gmail.com")
      = (str "<Autodiscover xmlns=\"http://schemas.microsoft.com/exchange/autodiscover/outlook/requestschema/2006\"><Request><EMailAddress>somebody@gmail.com</EMailAddress><AcceptableResponseSchema>http://schemas.microsoft.com/exchange/autodiscover/outlook/responseschema/2006a</AcceptableResponseSchema></Request></Autodiscover>", none) :=
  ⟨by decide, (requestBody_plain "somebody@gmail.com" (by decide)).trans rfl⟩

/-! ## `Discover` -/

theorem parseResponse_total (unmarshal : Unmarshal) (body : GoString) :
    ∃ r, parseResponse unmarshal body = some r := by
  have htail : ∀ u v, ∃ r, parseResponseTail u v = some r := by
    intro u v
    unfold parseResponseTail
    obtain ⟨⟨label, err⟩, hr⟩ := exchangeVersion_total v
    rw [hr]
    cases err <;> exact ⟨_, rfl⟩
  cases hu : unmarshal body with
  | error e => exact ⟨_, by unfold parseResponse; rw [hu]⟩
  | ok response =>
    obtain ⟨protocols⟩ := response
    rw [parseResponse_eq unmarshal body protocols hu]
    cases firstOfType "EXCH" protocols with
    | none => exact ⟨_, rfl⟩
    | some p =>
      simp only []
      split
      · cases firstOfType "EXPR" protocols with
        | none => exact ⟨_, rfl⟩
        | some q => exact htail _ _
      · exact htail _ _

theorem Split_length (sep : UInt8) : ∀ s : GoString,
    1 ≤ (Split s sep).length ∧ (sep ∈ s → 2 ≤ (Split s sep).length) := by
  intro s
  induction s with
  | nil => simp [Split]
  | cons b rest ih =>
    unfold Split
    by_cases hb : b = sep
    · rw [if_pos hb]
      simp only [List.length_cons]
      exact ⟨by omega, fun _ => by omega⟩
    · rw [if_neg hb]
      rcases hs : Split rest sep with _ | ⟨piece, pieces⟩
      · rw [hs] at ih; simp at ih
      · rw [hs] at ih
        simp only [List.length_cons] at ih ⊢
        refine ⟨by omega, fun hmem => ?_⟩
        have : sep ∈ rest := by
          rcases List.mem_cons.1 hmem with h | h
          · exact absurd h.symm hb
          · exact h
        exact ih.2 this

theorem Split_domain (s : GoString) (h : (64 : UInt8) ∈ s) :
    ∃ domain, index (Split s 64) 1 = some domain := by
  have hlen := (Split_length 64 s).2 h
  rcases hs : Split s 64 with _ | ⟨p0, _ | ⟨p1, ps⟩⟩
  · rw [hs] at hlen; simp at hlen
  · rw [hs] at hlen; simp at hlen
  · exact ⟨p1, by simp [index]⟩

theorem discoveryUrls_length (w : Collaborators) (emailAddress : GoString)
    (h : (64 : UInt8) ∈ emailAddress) :
    ∃ urls sent, discoveryUrls w emailAddress = some (urls, sent) ∧ urls.length = 3 := by
  obtain ⟨domain, hd⟩ := Split_domain emailAddress h
  have hr : ∃ r sent, redirectedUrl w emailAddress = some (r, sent) := by
    unfold redirectedUrl
    rw [hd]
    simp only [Option.bind_eq_bind, Option.some_bind]
    split
    · exact ⟨_, _, rfl⟩
    · split
      · exact ⟨_, _, rfl⟩
      · split <;> exact ⟨_, _, rfl⟩
  obtain ⟨r, sent, hr⟩ := hr
  refine ⟨[str "https://" ++ domain ++ str "/autodiscover/autodiscover.xml",
    str "https://autodiscover." ++ domain ++ str "/autodiscover/autodiscover.xml", r],
    sent, ?_, rfl⟩
  unfold discoveryUrls
  rw [hd, hr]
  rfl

theorem discoverLoop_success (w : Collaborators) (emailAddress password url : GoString)
    (info : DiscoveredInfo) (rest : List GoString) (sent : List Request)
    (h : ProbeSucceeds w emailAddress password url info) :
    discoverLoop w emailAddress password (requestBody emailAddress).1 (url :: rest) sent
      = some ((info, none), sent ++ [probeRequest emailAddress password url]) := by
  obtain ⟨hne, hnew, resp, respBody, hdo, hstatus, hbody, hparse⟩ := h
  have hdo2 : w.Do ⟨str "GET", url,
      [] ++ [(str "Authorization", str "Basic " ++ basicAuth emailAddress password)],
      some (requestBody emailAddress).1⟩ = .ok resp := hdo
  unfold discoverLoop
  rw [if_neg hne]
  simp only [NewRequest, hnew, hdo2, hstatus, hbody, hparse]
  simp [probeRequest]

theorem discoverLoop_failure (w : Collaborators) (emailAddress password url : GoString)
    (rest : List GoString) (sent : List Request)
    (h : ∀ info, ¬ ProbeSucceeds w emailAddress password url info) :
    discoverLoop w emailAddress password (requestBody emailAddress).1 (url :: rest) sent
      = discoverLoop w emailAddress password (requestBody emailAddress).1 rest
          (sent ++ ([url].filter (probed w)).map (probeRequest emailAddress password)) := by
  rw [discoverLoop]
  by_cases hne : url = str ""
  · rw [if_pos hne]
    simp [probed, hne]
  · rw [if_neg hne]
    cases hnew : w.newRequestError url with
    | some e => simp [NewRequest, hnew, probed]
    | none =>
      have hp : probed w url = true := by simp [probed, hne, hnew]
      have hreq : (⟨str "GET", url,
          [] ++ [(str "Authorization", str "Basic " ++ basicAuth emailAddress password)],
          some (requestBody emailAddress).1⟩ : Request)
          = probeRequest emailAddress password url := rfl
      simp only [NewRequest, hnew, hreq, List.filter_cons, hp, if_true, List.filter_nil,
        List.map_cons, List.map_nil]
      cases hdo : w.Do (probeRequest emailAddress password url) with
      | error e => rfl
      | ok resp =>
        simp only []
        by_cases hstatus : resp.StatusCode = 200
        · rw [if_neg (by simpa using hstatus)]
          cases hbody : resp.Body with
          | error e => rfl
          | ok respBody =>
            simp only []
            obtain ⟨⟨info, err⟩, hr⟩ := parseResponse_total w.unmarshal respBody
            cases err with
            | none =>
              exact absurd ⟨hne, hnew, resp, respBody, hdo, hstatus, hbody, hr⟩ (h info)
            | some e => rw [hr]
        · rw [if_pos hstatus]

theorem probed_of_succeeds (w : Collaborators) (emailAddress password url : GoString)
    (info : DiscoveredInfo) (h : ProbeSucceeds w emailAddress password url info) :
    probed w url = true := by
  obtain ⟨hne, hnew, _⟩ := h
  simp [probed, hne, hnew]

theorem discoverLoop_first (w : Collaborators) (emailAddress password : GoString) :
    ∀ (urls : List GoString) (sent : List Request) (i : Nat) (url : GoString)
      (info : DiscoveredInfo),
      urls[i]? = some url → ProbeSucceeds w emailAddress password url info →
      (∀ j u, j < i → urls[j]? = some u →
        ∀ info2, ¬ ProbeSucceeds w emailAddress password u info2) →
      discoverLoop w emailAddress password (requestBody emailAddress).1 urls sent
        = some ((info, none),
            sent ++ ((urls.take (i + 1)).filter (probed w)).map
              (probeRequest emailAddress password)) := by
  intro urls
  induction urls with
  | nil => intro sent i url info hi; simp at hi
  | cons u rest ih =>
    intro sent i url info hi hs hfail
    cases i with
    | zero =>
      simp only [List.getElem?_cons_zero, Option.some.injEq] at hi
      subst hi
      rw [discoverLoop_success w emailAddress password u info rest sent hs]
      simp [List.take, List.filter_cons, probed_of_succeeds w emailAddress password u info hs]
    | succ i =>
      simp only [List.getElem?_cons_succ] at hi
      rw [discoverLoop_failure w emailAddress password u rest sent
        (hfail 0 u (by omega) (by simp))]
      rw [ih _ i url info hi hs (fun j v hj hv => hfail (j + 1) v (by omega) (by simpa using hv))]
      congr 1
      simp only [List.take_succ_cons, List.filter_cons, List.filter_nil]
      split <;> simp

/-- First success wins: for every address containing `@`, every password and
all collaborators, `discoveryUrls` yields three candidates, and if candidate
`i` succeeds (it is non-empty, its request can be built, `httpClient.Do`
answers its probe without error with status 200, the body is read and
`parseResponse` succeeds on it with `info`) while no earlier candidate
succeeds, then `Discover` returns `info` with no error, and after the
requests of `discoveryUrls` it has sent exactly the probes of the candidates
up to `i` that were non-empty and could be built, none for a later
candidate. -/
theorem Discover_first_success (w : Collaborators) (emailAddress password : GoString)
    (hat : (64 : UInt8) ∈ emailAddress) :
    ∃ urls sent0, discoveryUrls w emailAddress = some (urls, sent0) ∧ urls.length = 3 ∧
      ∀ (i : Nat) (url : GoString) (info : DiscoveredInfo),
        urls[i]? = some url → ProbeSucceeds w emailAddress password url info →
        (∀ j u, j < i → urls[j]? = some u →
          ∀ info2, ¬ ProbeSucceeds w emailAddress password u info2) →
        Discover w emailAddress password
          = some ((info, none),
              sent0 ++ ((urls.take (i + 1)).filter (probed w)).map
                (probeRequest emailAddress password)) := by
  obtain ⟨urls, sent0, hurls, hlen⟩ := discoveryUrls_length w emailAddress hat
  refine ⟨urls, sent0, hurls, hlen, ?_⟩
  intro i url info hi hs hfail
  have hbody := requestBody_eq emailAddress
  have hD : Discover w emailAddress password
      = discoverLoop w emailAddress password (requestBody emailAddress).1 urls sent0 := by
    unfold Discover
    rw [hbody, hurls]
    rfl
  rw [hD]
  exact discoverLoop_first w emailAddress password urls sent0 i url info hi hs hfail

/-! ## `exchangeVersion`: totality, refinement, unused bits -/

theorem fieldsBySlicing_eq (n : Nat) (hn : n < 2 ^ 32) :
    fieldsBySlicing n
      = some ((((n / 2 ^ 22 % 64 : Nat) : Int), none), (((n / 2 ^ 16 % 64 : Nat) : Int), none),
          (((n % 2 ^ 15 : Nat) : Int), none)) := by
  have s1 := slice_bitsW n 4 6 22
  have s2 := slice_bitsW n 10 6 16
  have s3 := slice_bitsW n 17 15 0
  have p1 := ParseInt_bits 6 (n / 2 ^ 22) (by omega) (by omega)
  have p2 := ParseInt_bits 6 (n / 2 ^ 16) (by omega) (by omega)
  have p3 := ParseInt_bits 15 n (by omega) (by omega)
  simp only [Nat.reduceAdd, pow_zero, Nat.div_one] at s1 s2 s3
  unfold fieldsBySlicing
  simp only [sprintf032b_eq n hn, s1, s2, s3, Option.bind_eq_bind, Option.some_bind, p1, p2, p3]
  rfl

/-- The field extraction as it stands inside `exchangeVersion`. -/
theorem exchangeVersion_slicing (rawHex : GoString) (n : Nat)
    (h : ParseUint rawHex 16 32 = (n, none)) :
    exchangeVersion rawHex
      = (fieldsBySlicing n).map fun f => versionSwitch f.1.1 f.2.1.1 f.2.2.1 := by
  unfold exchangeVersion fieldsBySlicing
  rw [h]
  simp only [Option.bind_eq_bind]
  cases slice (sprintf032b n) 4 10 <;> cases slice (sprintf032b n) 10 16 <;>
    cases slice (sprintf032b n) 17 32 <;> rfl

/-- C20: for every `n < 2^32` the string-slicing field extraction of
`exchangeVersion` does not panic, none of its three binary sub-parses fails,
and it yields major = (n / 2^22) mod 64, minor = (n / 2^16) mod 64 and
build = n mod 2^15, the fields by integer arithmetic; so major and minor lie
in 0..63 and build in 0..32767. -/
theorem fieldsBySlicing_refines (n : Nat) (hn : n < 2 ^ 32) :
    fieldsBySlicing n
      = some (((fieldsByArithmetic n).1, none), ((fieldsByArithmetic n).2.1, none),
          ((fieldsByArithmetic n).2.2, none)) ∧
    (0 ≤ (fieldsByArithmetic n).1 ∧ (fieldsByArithmetic n).1 ≤ 63) ∧
    (0 ≤ (fieldsByArithmetic n).2.1 ∧ (fieldsByArithmetic n).2.1 ≤ 63) ∧
    (0 ≤ (fieldsByArithmetic n).2.2 ∧ (fieldsByArithmetic n).2.2 ≤ 32767) := by
  refine ⟨fieldsBySlicing_eq n hn, ?_, ?_, ?_⟩ <;> simp only [fieldsByArithmetic] <;> omega

/-- The value 0x73C1840A of the test token: major 15, minor 1, build 1034. -/
theorem fieldsBySlicing_refines_witness :
    fieldsBySlicing 0x73C1840A = some ((15, none), (1, none), (1034, none)) ∧
    fieldsByArithmetic 0x73C1840A = (15, 1, 1034) :=
  ⟨(fieldsBySlicing_refines 0x73C1840A (by decide)).1.trans (by decide), by decide⟩

theorem bitChar_cases (b : Nat) : bitChar b = 48 ∨ bitChar b = 49 := by
  unfold bitChar
  rcases Nat.mod_two_eq_zero_or_one b with h | h <;> rw [h]
  · exact Or.inl rfl
  · exact Or.inr rfl

theorem bitsW_digits (w n : Nat) : ∀ b ∈ bitsW w n, b = 48 ∨ b = 49 := by
  induction w with
  | zero => intro b hb; cases hb
  | succ w ih =>
    intro b hb
    rw [bitsW] at hb
    rcases List.mem_cons.1 hb with h | h
    · rw [h]; exact bitChar_cases _
    · exact ih b h

theorem versionSwitch_shape (major minor build : Nat) :
    (∃ label, label ≠ str "" ∧ versionSwitch major minor build = (label, none)) ∨
    (∃ err, versionSwitch major minor build = (str "", some err)) := by
  by_cases hl : listed major minor
  · exact Or.inl (versionSwitch_listed major minor build hl)
  · rcases not_listed_cases major minor hl with ⟨h8, h14, h15⟩ | hm
    · exact Or.inr ⟨_, versionSwitch_major major minor build h8 h14 h15⟩
    · exact Or.inr ⟨_, versionSwitch_minor major minor build hm⟩

/-- C17: `exchangeVersion` never panics and returns, for every input, either a
non-empty label with no error or the empty label with an error; whenever the
hexadecimal parse succeeds with `n`, the binary rendering of `n` has exactly
32 bytes, each `0` or `1`, the slices `[4:10]`, `[10:16]`, `[17:32]` are in
range, and none of the three binary sub-parses returns an error. -/
theorem exchangeVersion_never_panics (rawHex : GoString) :
    ((∃ label, label ≠ str "" ∧ exchangeVersion rawHex = some (label, none)) ∨
      (∃ err, exchangeVersion rawHex = some (str "", some err))) ∧
    (∀ n, ParseUint rawHex 16 32 = (n, none) →
      (sprintf032b n).length = 32 ∧ (∀ b ∈ sprintf032b n, b = 48 ∨ b = 49) ∧
      ∃ s1 s2 s3, slice (sprintf032b n) 4 10 = some s1 ∧
        slice (sprintf032b n) 10 16 = some s2 ∧ slice (sprintf032b n) 17 32 = some s3 ∧
        (ParseInt s1 2 32).2 = none ∧ (ParseInt s2 2 32).2 = none ∧
        (ParseInt s3 2 32).2 = none) := by
  constructor
  · rcases hp : ParseUint rawHex 16 32 with ⟨n, err⟩
    cases err with
    | none =>
      rw [exchangeVersion_fields rawHex n hp]
      rcases versionSwitch_shape (n / 2 ^ 22 % 64) (n / 2 ^ 16 % 64) (n % 2 ^ 15) with
        ⟨label, hne, heq⟩ | ⟨err, heq⟩
      · exact Or.inl ⟨label, hne, by rw [heq]⟩
      · exact Or.inr ⟨err, by rw [heq]⟩
    | some e =>
      refine Or.inr ⟨e, ?_⟩
      unfold exchangeVersion
      rw [hp]
  · intro n hp
    obtain ⟨_, _, _, hn⟩ := ParseUint_ok rawHex n hp
    have s1 := slice_bitsW n 4 6 22
    have s2 := slice_bitsW n 10 6 16
    have s3 := slice_bitsW n 17 15 0
    simp only [Nat.reduceAdd, pow_zero, Nat.div_one] at s1 s2 s3
    rw [sprintf032b_eq n hn]
    refine ⟨bitsW_length 32 n, bitsW_digits 32 n, _, _, _, s1, s2, s3, ?_, ?_, ?_⟩
    · rw [ParseInt_bits 6 (n / 2 ^ 22) (by omega) (by omega)]
    · rw [ParseInt_bits 6 (n / 2 ^ 16) (by omega) (by omega)]
    · rw [ParseInt_bits 15 n (by omega) (by omega)]

/-- The rendering of the test token `738180DA` and its three sub-parses. -/
theorem exchangeVersion_never_panics_witness :
    (sprintf032b 0x738180DA).length = 32 ∧
    ∃ s1 s2 s3, slice (sprintf032b 0x738180DA) 4 10 = some s1 ∧
      slice (sprintf032b 0x738180DA) 10 16 = some s2 ∧
      slice (sprintf032b 0x738180DA) 17 32 = some s3 ∧
      (ParseInt s1 2 32).2 = none ∧ (ParseInt s2 2 32).2 = none ∧
      (ParseInt s3 2 32).2 = none :=
  have h := (exchangeVersion_never_panics (str "738180DA")).2 0x738180DA (by decide)
  ⟨h.1, h.2.2⟩

theorem bitField_congr (n1 n2 lo hi : Nat)
    (h : ∀ k, lo ≤ k → k < hi → bitAt n1 k = bitAt n2 k) :
    bitField n1 lo hi = bitField n2 lo hi := by
  unfold bitField
  congr 1
  apply List.map_congr_left
  intro j hj
  have := List.mem_range.1 hj
  exact h (lo + j) (by omega) (by omega)

theorem versionSwitch_build (major minor b1 b2 : Nat) (h : ¬ (major = 15 ∧ minor = 0)) :
    versionSwitch major minor b1 = versionSwitch major minor b2 := by
  unfold versionSwitch
  by_cases h15 : (major : Int) = 15
  · have hm : ¬ ((minor : Int) = 0) := by omega
    have h8 : ¬ ((major : Int) = 8) := by omega
    have h14 : ¬ ((major : Int) = 14) := by omega
    simp only [h15, h8, h14, hm, if_false, if_true]
  · simp only [h15, if_false]

/-- C18: two tokens that parse as unsigned 32-bit integers agreeing on every
bit position other than 0..3 and 16 get the same result from
`exchangeVersion`; and two tokens agreeing on the major and minor bits
(positions 4..15) get the same result whatever their other bits, the 15
build bits included, unless major = 15 and minor = 0. -/
theorem exchangeVersion_unused_bits (t1 t2 : GoString) (n1 n2 : Nat)
    (h1 : ParseUint t1 16 32 = (n1, none)) (h2 : ParseUint t2 16 32 = (n2, none)) :
    ((∀ k, k < 32 → k ≠ 0 → k ≠ 1 → k ≠ 2 → k ≠ 3 → k ≠ 16 → bitAt n1 k = bitAt n2 k) →
      exchangeVersion t1 = exchangeVersion t2) ∧
    ((∀ k, 4 ≤ k → k < 16 → bitAt n1 k = bitAt n2 k) →
      ¬ (bitField n1 4 10 = 15 ∧ bitField n1 10 16 = 0) →
      exchangeVersion t1 = exchangeVersion t2) := by
  rw [exchangeVersion_bitFields t1 n1 h1, exchangeVersion_bitFields t2 n2 h2]
  constructor
  · intro h
    rw [bitField_congr n1 n2 4 10 (fun k _ _ => h k (by omega) (by omega) (by omega)
          (by omega) (by omega) (by omega)),
      bitField_congr n1 n2 10 16 (fun k _ _ => h k (by omega) (by omega) (by omega)
          (by omega) (by omega) (by omega)),
      bitField_congr n1 n2 17 32 (fun k _ _ => h k (by omega) (by omega) (by omega)
          (by omega) (by omega) (by omega))]
  · intro h hne
    rw [bitField_congr n1 n2 4 10 (fun k _ _ => h k (by omega) (by omega)),
      bitField_congr n1 n2 10 16 (fun k _ _ => h k (by omega) (by omega))] at hne ⊢
    rw [versionSwitch_build _ _ (bitField n1 17 32) (bitField n2 17 32) hne]

/-- The tokens `03C1840A` and `F3C1040A` differ exactly in the top four bits
and in bit 16. The tokens `73C1840A` and `83C1C40B` agree on the major and
minor bits (major 15, minor 1) and differ in the top four bits and in the
build bits 17 and 31. -/
theorem exchangeVersion_unused_bits_witness :
    exchangeVersion (str "03C1840A") = exchangeVersion (str "F3C1040A") ∧
    exchangeVersion (str "73C1840A") = exchangeVersion (str "83C1C40B") :=
  ⟨(exchangeVersion_unused_bits (str "03C1840A") (str "F3C1040A") 0x03C1840A 0xF3C1040A
      (by decide) (by decide)).1
      (fun k hk h0 h1 h2 h3 h16 => by interval_cases k <;> first | decide | omega),
   (exchangeVersion_unused_bits (str "73C1840A") (str "83C1C40B") 0x73C1840A 0x83C1C40B
      (by decide) (by decide)).2
      (fun k hlo hhi => by interval_cases k <;> decide) (by decide)⟩

/-! ## `Discover`: exhaustion, candidates, probes -/

theorem probeFails_iff (w : Collaborators) (emailAddress password url : GoString) :
    ProbeFails w emailAddress password url
      ↔ ∀ info, ¬ ProbeSucceeds w emailAddress password url info := by
  constructor
  · rintro hf info ⟨hne, hnew, resp, respBody, hdo, hstatus, hbody, hparse⟩
    rcases hf with h | ⟨e, h⟩ | ⟨e, h⟩ | ⟨resp2, h, hr⟩
    · exact hne h
    · rw [hnew] at h; cases h
    · rw [hdo] at h; cases h
    · rw [hdo] at h
      cases h
      rcases hr with h | ⟨e, h⟩ | ⟨b, i, e, hb, hp⟩
      · exact h hstatus
      · rw [hbody] at h; cases h
      · rw [hbody] at hb
        cases hb
        rw [hparse] at hp
        cases hp
  · intro h
    by_cases hne : url = str ""
    · exact Or.inl hne
    · cases hnew : w.newRequestError url with
      | some e => exact Or.inr (Or.inl ⟨e, hnew⟩)
      | none =>
        cases hdo : w.Do (probeRequest emailAddress password url) with
        | error e => exact Or.inr (Or.inr (Or.inl ⟨e, hdo⟩))
        | ok resp =>
          refine Or.inr (Or.inr (Or.inr ⟨resp, hdo, ?_⟩))
          by_cases hstatus : resp.StatusCode = 200
          · cases hbody : resp.Body with
            | error e => exact Or.inr (Or.inl ⟨e, rfl⟩)
            | ok respBody =>
              obtain ⟨⟨info, err⟩, hr⟩ := parseResponse_total w.unmarshal respBody
              cases err with
              | none => exact absurd ⟨hne, hnew, resp, respBody, hdo, hstatus, hbody, hr⟩ (h info)
              | some e => exact Or.inr (Or.inr ⟨respBody, info, e, rfl, hr⟩)
          · exact Or.inl hstatus

theorem discoverLoop_all_fail (w : Collaborators) (emailAddress password : GoString) :
    ∀ (urls : List GoString) (sent : List Request),
      (∀ u ∈ urls, ProbeFails w emailAddress password u) →
      discoverLoop w emailAddress password (requestBody emailAddress).1 urls sent
        = some ((DiscoveredInfo.zero,
              some (.errorsNew "failed to fetch discovery information")),
            sent ++ (urls.filter (probed w)).map (probeRequest emailAddress password)) := by
  intro urls
  induction urls with
  | nil => intro sent _; simp [discoverLoop]
  | cons u rest ih =>
    intro sent h
    rw [discoverLoop_failure w emailAddress password u rest sent
      ((probeFails_iff w emailAddress password u).1 (h u (List.mem_cons_self _ _)))]
    rw [ih _ (fun v hv => h v (List.mem_cons_of_mem _ hv))]
    congr 1
    simp only [List.filter_cons, List.filter_nil]
    split <;> simp

theorem discoverLoop_sent (w : Collaborators) (emailAddress password : GoString) :
    ∀ (urls : List GoString) (sent : List Request)
      (res : DiscoveredInfo × Option GoError) (sent2 : List Request),
      discoverLoop w emailAddress password (requestBody emailAddress).1 urls sent
        = some (res, sent2) →
      ∃ probedUrls : List GoString, probedUrls.Sublist urls ∧
        (∀ u ∈ probedUrls, probed w u = true) ∧
        sent2 = sent ++ probedUrls.map (probeRequest emailAddress password) ∧
        ((∃ info, res = (info, none) ∧ ∃ u ∈ urls, ProbeSucceeds w emailAddress password u info) ∨
         (res = (DiscoveredInfo.zero, some (.errorsNew "failed to fetch discovery information")) ∧
           ∀ u ∈ urls, ProbeFails w emailAddress password u)) := by
  intro urls
  induction urls with
  | nil =>
    intro sent res sent2 h
    simp only [discoverLoop, Option.some.injEq, Prod.mk.injEq] at h
    obtain ⟨rfl, rfl⟩ := h
    exact ⟨[], List.Sublist.slnil, by simp, by simp, Or.inr ⟨rfl, by simp⟩⟩
  | cons u rest ih =>
    intro sent res sent2 h
    by_cases hs : ∃ info, ProbeSucceeds w emailAddress password u info
    · obtain ⟨info, hs⟩ := hs
      rw [discoverLoop_success w emailAddress password u info rest sent hs] at h
      simp only [Option.some.injEq, Prod.mk.injEq] at h
      obtain ⟨rfl, rfl⟩ := h
      refine ⟨[u], ?_, ?_, by simp, Or.inl ⟨info, rfl, u, List.mem_cons_self _ _, hs⟩⟩
      · exact List.Sublist.cons₂ u (List.nil_sublist rest)
      · intro v hv
        rw [List.mem_singleton.1 hv]
        exact probed_of_succeeds w emailAddress password u info hs
    · have hf : ∀ info, ¬ ProbeSucceeds w emailAddress password u info :=
        fun info hi => hs ⟨info, hi⟩
      rw [discoverLoop_failure w emailAddress password u rest sent hf] at h
      obtain ⟨ps, hsub, hprobed, hsent, hres⟩ := ih _ res sent2 h
      have hres2 : (∃ info, res = (info, none) ∧
          ∃ v ∈ u :: rest, ProbeSucceeds w emailAddress password v info) ∨
          (res = (DiscoveredInfo.zero,
              some (.errorsNew "failed to fetch discovery information")) ∧
            ∀ v ∈ u :: rest, ProbeFails w emailAddress password v) := by
        rcases hres with ⟨info, hr, v, hv, hvs⟩ | ⟨hr, hall⟩
        · exact Or.inl ⟨info, hr, v, List.mem_cons_of_mem _ hv, hvs⟩
        · refine Or.inr ⟨hr, fun v hv => ?_⟩
          rcases List.mem_cons.1 hv with h1 | h1
          · rw [h1]; exact (probeFails_iff w emailAddress password u).2 hf
          · exact hall v h1
      by_cases hp : probed w u = true
      · refine ⟨u :: ps, List.Sublist.cons₂ u hsub, ?_, ?_, hres2⟩
        · intro v hv
          rcases List.mem_cons.1 hv with h1 | h1
          · rw [h1]; exact hp
          · exact hprobed v h1
        · rw [hsent]
          simp [List.filter_cons, hp]
      · refine ⟨ps, List.Sublist.cons u hsub, hprobed, ?_, hres2⟩
        rw [hsent]
        simp [List.filter_cons, hp]

theorem Discover_eq_loop (w : Collaborators) (emailAddress password : GoString)
    (urls : List GoString) (sent0 : List Request)
    (hurls : discoveryUrls w emailAddress = some (urls, sent0)) :
    Discover w emailAddress password
      = discoverLoop w emailAddress password (requestBody emailAddress).1 urls sent0 := by
  unfold Discover
  rw [requestBody_eq emailAddress, hurls]
  rfl

theorem discoverLoop_total (w : Collaborators) (emailAddress password : GoString) :
    ∀ (urls : List GoString) (sent : List Request),
      ∃ r, discoverLoop w emailAddress password (requestBody emailAddress).1 urls sent
        = some r := by
  intro urls
  induction urls with
  | nil => intro sent; exact ⟨_, rfl⟩
  | cons u rest ih =>
    intro sent
    by_cases hs : ∃ info, ProbeSucceeds w emailAddress password u info
    · obtain ⟨info, hs⟩ := hs
      exact ⟨_, discoverLoop_success w emailAddress password u info rest sent hs⟩
    · rw [discoverLoop_failure w emailAddress password u rest sent
        (fun info hi => hs ⟨info, hi⟩)]
      exact ih _

/-- C11: for every address containing `@`, every password and all
collaborators, `Discover` does not panic; if every candidate is empty or
fails (request construction, transport error, status other than 200, body
read error or `parseResponse` error, in any mix) it returns the zero
`DiscoveredInfo` with the error "failed to fetch discovery information",
after probing every candidate that is non-empty and can be built; the only
error it ever returns is that one; and it fails if and only if no candidate
succeeds. -/
theorem Discover_exhaustion (w : Collaborators) (emailAddress password : GoString)
    (hat : (64 : UInt8) ∈ emailAddress) :
    ∃ urls sent0, discoveryUrls w emailAddress = some (urls, sent0) ∧ urls.length = 3 ∧
      (∃ r, Discover w emailAddress password = some r) ∧
      ((∀ u ∈ urls, ProbeFails w emailAddress password u) →
        Discover w emailAddress password
          = some ((DiscoveredInfo.zero,
                some (.errorsNew "failed to fetch discovery information")),
              sent0 ++ (urls.filter (probed w)).map (probeRequest emailAddress password))) ∧
      (∀ info err sent, Discover w emailAddress password = some ((info, some err), sent) →
        info = DiscoveredInfo.zero ∧
        err = .errorsNew "failed to fetch discovery information") ∧
      ((∃ info err sent, Discover w emailAddress password = some ((info, some err), sent)) ↔
        ∀ u ∈ urls, ∀ info, ¬ ProbeSucceeds w emailAddress password u info) := by
  obtain ⟨urls, sent0, hurls, hlen⟩ := discoveryUrls_length w emailAddress hat
  have hD := Discover_eq_loop w emailAddress password urls sent0 hurls
  have hfail : (∀ u ∈ urls, ProbeFails w emailAddress password u) →
      Discover w emailAddress password
        = some ((DiscoveredInfo.zero,
              some (.errorsNew "failed to fetch discovery information")),
            sent0 ++ (urls.filter (probed w)).map (probeRequest emailAddress password)) := by
    intro h
    rw [hD]
    exact discoverLoop_all_fail w emailAddress password urls sent0 h
  have herr : ∀ info err sent,
      Discover w emailAddress password = some ((info, some err), sent) →
      (info = DiscoveredInfo.zero ∧
        err = .errorsNew "failed to fetch discovery information") ∧
      ∀ u ∈ urls, ProbeFails w emailAddress password u := by
    intro info err sent h
    rw [hD] at h
    obtain ⟨_, _, _, _, hres⟩ := discoverLoop_sent w emailAddress password urls sent0 _ _ h
    rcases hres with ⟨i, hi, _⟩ | ⟨hr, hall⟩
    · simp at hi
    · simp only [Prod.mk.injEq, Option.some.injEq] at hr
      exact ⟨hr, hall⟩
  have htotal : ∃ r, Discover w emailAddress password = some r := by
    rw [hD]
    exact discoverLoop_total w emailAddress password urls sent0
  refine ⟨urls, sent0, hurls, hlen, htotal, hfail, fun info err sent h => (herr info err sent h).1,
    ?_⟩
  constructor
  · rintro ⟨info, err, sent, h⟩ u hu
    exact (probeFails_iff w emailAddress password u).1 ((herr info err sent h).2 u hu)
  · intro h
    exact ⟨_, _, _, hfail (fun u hu => (probeFails_iff w emailAddress password u).2 (h u hu))⟩

/-- Both endpoints of `user@example.com` fail under `exhaustedServer`, by a
decoding error and a status 500, and the third candidate is empty:
`Discover` returns the aggregate error after the redirect request and two
probes. -/
theorem Discover_exhaustion_witness :
    Discover exhaustedServer (str "user@example.com") (str "secret")
      = some ((DiscoveredInfo.zero,
            some (.errorsNew "failed to fetch discovery information")),
          [redirectProbe (str "example.com"),
           probeRequest (str "user@example.com") (str "secret")
             (str "https://example.com/autodiscover/autodiscover.xml"),
           probeRequest (str "user@example.com") (str "secret")
             (str "https://autodiscover.example.com/autodiscover/autodiscover.xml")]) := by
  obtain ⟨urls, sent0, hurls, _, _, h, _⟩ :=
    Discover_exhaustion exhaustedServer (str "user@example.com") (str "secret") (by decide)
  have hc : discoveryUrls exhaustedServer (str "user@example.com")
      = some ([str "https://example.com/autodiscover/autodiscover.xml",
               str "https://autodiscover.example.com/autodiscover/autodiscover.xml",
               str ""],
              [redirectProbe (str "example.com")]) := by decide
  rw [hc] at hurls
  simp only [Option.some.injEq, Prod.mk.injEq] at hurls
  obtain ⟨rfl, rfl⟩ := hurls
  rw [h (by
    intro u hu
    simp only [List.mem_cons, List.mem_singleton, List.not_mem_nil, or_false] at hu
    rcases hu with rfl | rfl | rfl
    · exact Or.inr (Or.inr (Or.inr ⟨⟨200, [], .ok (str "not xml")⟩, rfl,
        Or.inr (Or.inr ⟨str "not xml", DiscoveredInfo.zero, .external 2, rfl, rfl⟩)⟩))
    · exact Or.inr (Or.inr (Or.inr ⟨⟨500, [], .ok (str "")⟩, rfl, Or.inl (by decide)⟩))
    · exact Or.inl rfl)]
  rfl

theorem Split_no_sep (sep : UInt8) : ∀ s : GoString, sep ∉ s → Split s sep = [s] := by
  intro s
  induction s with
  | nil => intro _; rfl
  | cons b rest ih =>
    intro h
    have hb : ¬ b = sep := fun e => h (e ▸ List.mem_cons_self _ _)
    have hr : sep ∉ rest := fun hm => h (List.mem_cons_of_mem _ hm)
    rw [Split, if_neg hb, ih hr]

theorem Split_first (sep : UInt8) (d : GoString) : ∀ l : GoString, sep ∉ l →
    Split (l ++ sep :: d) sep = l :: Split d sep := by
  intro l
  induction l with
  | nil => intro _; simp [Split]
  | cons b rest ih =>
    intro h
    have hb : ¬ b = sep := fun e => h (e ▸ List.mem_cons_self _ _)
    have hr : sep ∉ rest := fun hm => h (List.mem_cons_of_mem _ hm)
    rw [List.cons_append, Split, if_neg hb, ih hr]

theorem Split_one_at (l d : GoString) (hl : (64 : UInt8) ∉ l) (hd : (64 : UInt8) ∉ d) :
    index (Split (l ++ 64 :: d) 64) 1 = some d := by
  rw [Split_first 64 d l hl, Split_no_sep 64 d hd]
  simp [index]

theorem redirectedUrl_eq (w : Collaborators) (emailAddress d : GoString)
    (hd : index (Split emailAddress 64) 1 = some d) :
    redirectedUrl w emailAddress =
      match w.newRequestError (redirectProbe d).URL with
      | some _ => some (str "", [])
      | none =>
        match w.Do (redirectProbe d) with
        | .error _ => some (str "", [redirectProbe d])
        | .ok resp =>
          if resp.StatusCode ≠ 302 then some (str "", [redirectProbe d])
          else some (headerGet resp.Header (str "Location"), [redirectProbe d]) := by
  unfold redirectedUrl NewRequest
  rw [hd]
  simp only [Option.bind_eq_bind, Option.some_bind]
  cases h : w.newRequestError (redirectProbe d).URL with
  | some e =>
    have h2 : w.newRequestError
        (str "https://autodiscover." ++ d ++ str "/autodiscover/autodiscover.xml") = some e := h
    rw [h2]
  | none =>
    have h2 : w.newRequestError
        (str "https://autodiscover." ++ d ++ str "/autodiscover/autodiscover.xml") = none := h
    rw [h2]
    rfl

/-- C12: for every address made of a local part without `@`, one `@` and a
domain `d` without `@` (empty or not), `discoveryUrls` does not panic and
returns three entries in this order: `https://d/autodiscover/autodiscover.xml`,
`https://autodiscover.d/autodiscover/autodiscover.xml`, and the result of
`redirectedUrl` for the address; the first two are non-empty and are the same
under all collaborators. -/
theorem discoveryUrls_candidates (w : Collaborators) (localPart d : GoString)
    (hl : (64 : UInt8) ∉ localPart) (hd : (64 : UInt8) ∉ d) :
    ∃ r sent, redirectedUrl w (localPart ++ 64 :: d) = some (r, sent) ∧
      discoveryUrls w (localPart ++ 64 :: d)
        = some ([str "https://" ++ d ++ str "/autodiscover/autodiscover.xml",
                 str "https://autodiscover." ++ d ++ str "/autodiscover/autodiscover.xml",
                 r], sent) ∧
      str "https://" ++ d ++ str "/autodiscover/autodiscover.xml" ≠ str "" ∧
      str "https://autodiscover." ++ d ++ str "/autodiscover/autodiscover.xml" ≠ str "" := by
  have hidx := Split_one_at localPart d hl hd
  have hr : ∃ r sent, redirectedUrl w (localPart ++ 64 :: d) = some (r, sent) := by
    rw [redirectedUrl_eq w _ d hidx]
    cases w.newRequestError (redirectProbe d).URL with
    | some e => exact ⟨_, _, rfl⟩
    | none =>
      simp only []
      cases w.Do (redirectProbe d) with
      | error e => exact ⟨_, _, rfl⟩
      | ok resp =>
        simp only []
        split <;> exact ⟨_, _, rfl⟩
  obtain ⟨r, sent, hr⟩ := hr
  refine ⟨r, sent, hr, ?_, ?_, ?_⟩
  · unfold discoveryUrls
    rw [hidx, hr]
    rfl
  · intro h
    have hlen := congrArg List.length h
    have e1 : (str "https://").length = 8 := by decide
    have e0 : (str "").length = 0 := by decide
    rw [List.length_append, List.length_append, e1, e0] at hlen
    omega
  · intro h
    have hlen := congrArg List.length h
    have e1 : (str "https://autodiscover.").length = 21 := by decide
    have e0 : (str "").length = 0 := by decide
    rw [List.length_append, List.length_append, e1, e0] at hlen
    omega

/-- The address `user@example.com` under `exhaustedServer`, where the 302 has
no `Location` header. -/
theorem discoveryUrls_candidates_witness :
    discoveryUrls exhaustedServer (str "user@example.com")
      = some ([str "https://example.com/autodiscover/autodiscover.xml",
               str "https://autodiscover.example.com/autodiscover/autodiscover.xml",
               str ""],
              [redirectProbe (str "example.com")]) := by
  obtain ⟨r, sent, hr, h, _⟩ :=
    discoveryUrls_candidates exhaustedServer (str "user") (str "example.com")
      (by decide) (by decide)
  have hc : redirectedUrl exhaustedServer (str "user" ++ 64 :: str "example.com")
      = some (str "", [redirectProbe (str "example.com")]) := by decide
  rw [hc] at hr
  simp only [Option.some.injEq, Prod.mk.injEq] at hr
  obtain ⟨rfl, rfl⟩ := hr
  exact h

theorem clientDo_final (w : Collaborators) (ireq : Request) :
    ∀ (remaining : Nat) (req : Request) (resp : Response),
      (clientDo w ireq remaining req).1 = .ok resp →
      shouldRedirect resp.StatusCode = true →
      headerGet resp.Header (str "Location") = str "" := by
  intro remaining
  induction remaining with
  | zero =>
    intro req resp h hs
    unfold clientDo at h
    cases hrt : w.RoundTrip req with
    | error e => rw [hrt] at h; cases h
    | ok resp1 =>
      rw [hrt] at h
      simp only [] at h
      by_cases h1 : shouldRedirect resp1.StatusCode = true
      · by_cases h2 : headerGet resp1.Header (str "Location") = str ""
        · simp only [h1, h2, Bool.not_true, Bool.false_eq_true, if_false, if_true] at h
          cases h
          exact h2
        · simp only [h1, h2, Bool.not_true, Bool.false_eq_true, if_false] at h
          cases hn : w.nextHop ireq req resp1 with
          | error e => rw [hn] at h; cases h
          | ok next => rw [hn] at h; cases h
      · simp only [h1, Bool.not_false, if_true] at h
        cases h
        exact absurd hs h1
  | succ r ih =>
    intro req resp h hs
    unfold clientDo at h
    cases hrt : w.RoundTrip req with
    | error e => rw [hrt] at h; cases h
    | ok resp1 =>
      rw [hrt] at h
      simp only [] at h
      by_cases h1 : shouldRedirect resp1.StatusCode = true
      · by_cases h2 : headerGet resp1.Header (str "Location") = str ""
        · simp only [h1, h2, Bool.not_true, Bool.false_eq_true, if_false, if_true] at h
          cases h
          exact h2
        · simp only [h1, h2, Bool.not_true, Bool.false_eq_true, if_false] at h
          cases hn : w.nextHop ireq req resp1 with
          | error e => rw [hn] at h; cases h
          | ok next =>
            rw [hn] at h
            exact ih next resp h hs
      · simp only [h1, Bool.not_false, if_true] at h
        cases h
        exact absurd hs h1

theorem Do_final (w : Collaborators) (req : Request) (resp : Response)
    (h : w.Do req = .ok resp) (hs : resp.StatusCode = 302) :
    headerGet resp.Header (str "Location") = str "" :=
  clientDo_final w req 9 req resp h (by rw [hs]; rfl)

theorem redirectedUrl_empty (w : Collaborators) (emailAddress r : GoString)
    (sent : List Request) (h : redirectedUrl w emailAddress = some (r, sent)) :
    r = str "" := by
  cases hd : index (Split emailAddress 64) 1 with
  | none =>
    unfold redirectedUrl at h
    rw [hd] at h
    simp at h
  | some d =>
    rw [redirectedUrl_eq w emailAddress d hd] at h
    cases hn : w.newRequestError (redirectProbe d).URL with
    | some e =>
      rw [hn] at h
      simp only [Option.some.injEq, Prod.mk.injEq] at h
      exact h.1.symm
    | none =>
      rw [hn] at h
      simp only [] at h
      cases hdo : w.Do (redirectProbe d) with
      | error e =>
        rw [hdo] at h
        simp only [Option.some.injEq, Prod.mk.injEq] at h
        exact h.1.symm
      | ok resp =>
        rw [hdo] at h
        simp only [] at h
        by_cases hs : resp.StatusCode = 302
        · rw [if_neg (by simpa using hs)] at h
          simp only [Option.some.injEq, Prod.mk.injEq] at h
          rw [← h.1]
          exact Do_final w (redirectProbe d) resp hdo hs
        · rw [if_pos hs] at h
          simp only [Option.some.injEq, Prod.mk.injEq] at h
          exact h.1.symm

theorem discoveryUrls_third_empty (w : Collaborators) (emailAddress : GoString)
    (urls : List GoString) (sent0 : List Request)
    (h : discoveryUrls w emailAddress = some (urls, sent0)) :
    ∃ d, urls = [str "https://" ++ d ++ str "/autodiscover/autodiscover.xml",
      str "https://autodiscover." ++ d ++ str "/autodiscover/autodiscover.xml", str ""] := by
  unfold discoveryUrls at h
  cases hd : index (Split emailAddress 64) 1 with
  | none => rw [hd] at h; simp at h
  | some d =>
    rw [hd] at h
    cases hr : redirectedUrl w emailAddress with
    | none => rw [hr] at h; simp at h
    | some p =>
      obtain ⟨r, s⟩ := p
      rw [hr] at h
      simp only [Option.bind_eq_bind, Option.some_bind, Option.some.injEq, Prod.mk.injEq] at h
      rw [redirectedUrl_empty w emailAddress r s hr] at h
      exact ⟨d, h.1.symm⟩

set_option maxRecDepth 100000 in
/-- C13 fails on the code: under `redirectServer` the `autodiscover.` endpoint
of `user@example.com` answers the unauthenticated `GET` with a 302 whose
`Location` is `https://mail.example.net/autodiscover/autodiscover.xml`. The
client follows the redirect itself: `httpClient.Do` sends two requests and
returns the 200 of `mail.example.net`, and `redirectedUrl` returns the empty
string, not the `Location` value. Under all collaborators `redirectedUrl`
returns the empty string whenever it returns. -/
theorem redirectedUrl_drops_location :
    redirectServer.RoundTrip (redirectProbe (str "example.com"))
      = .ok ⟨302,
          [(str "Location", str "https://mail.example.net/autodiscover/autodiscover.xml")],
          .ok (str "")⟩ ∧
    redirectServer.roundTrips (redirectProbe (str "example.com"))
      = [redirectProbe (str "example.com"),
         ⟨str "GET", str "https://mail.example.net/autodiscover/autodiscover.xml",
           [(str "Referer",
             str "https://autodiscover.example.com/autodiscover/autodiscover.xml")], none⟩] ∧
    redirectServer.Do (redirectProbe (str "example.com"))
      = .ok ⟨200, [], .ok (str "<Autodiscover/>")⟩ ∧
    redirectedUrl redirectServer (str "user@example.com")
      = some (str "", [redirectProbe (str "example.com")]) ∧
    ∀ (w : Collaborators) (emailAddress : GoString),
      redirectedUrl w emailAddress = none ∨
      ∃ sent, redirectedUrl w emailAddress = some (str "", sent) := by
  refine ⟨rfl, by decide, rfl, by decide, ?_⟩
  intro w emailAddress
  cases h : redirectedUrl w emailAddress with
  | none => exact Or.inl rfl
  | some p =>
    obtain ⟨r, sent⟩ := p
    rw [redirectedUrl_empty w emailAddress r sent h]
    exact Or.inr ⟨sent, rfl⟩

/-- C14: in every run of `Discover` the requests passed to `httpClient.Do` are
those of `discoveryUrls` followed by the probes, and every probe, for
whichever candidate and after whatever earlier candidates answered, is a
`GET` to a non-empty candidate URL whose body is the output of
`requestBody(emailAddress)` (never a response body) and whose only header is
`Authorization: Basic ` followed by the base64 encoding of
`emailAddress ++ ":" ++ password`; the encoding is the standard padded one
(`Aladdin:open sesame` gives `QWxhZGRpbjpvcGVuIHNlc2FtZQ==`). -/
theorem Discover_probe_requests (w : Collaborators) (emailAddress password : GoString)
    (res : DiscoveredInfo × Option GoError) (sent : List Request)
    (h : Discover w emailAddress password = some (res, sent)) :
    (∃ urls sent0 probes, discoveryUrls w emailAddress = some (urls, sent0) ∧
      sent = sent0 ++ probes ∧
      ∀ req ∈ probes, req.Method = str "GET" ∧ req.URL ∈ urls ∧ req.URL ≠ str "" ∧
        req.Body = some (requestBody emailAddress).1 ∧
        req.Header = [(str "Authorization",
          str "Basic " ++ base64Encode (emailAddress ++ str ":" ++ password))]) ∧
    base64Encode (str "Aladdin:open sesame") = str "QWxhZGRpbjpvcGVuIHNlc2FtZQ==" := by
  refine ⟨?_, by decide⟩
  cases hurls : discoveryUrls w emailAddress with
  | none =>
    unfold Discover at h
    rw [requestBody_eq emailAddress, hurls] at h
    simp at h
  | some p =>
    obtain ⟨urls, sent0⟩ := p
    rw [Discover_eq_loop w emailAddress password urls sent0 hurls] at h
    obtain ⟨ps, hsub, hprobed, hsent, _⟩ :=
      discoverLoop_sent w emailAddress password urls sent0 res sent h
    refine ⟨urls, sent0, ps.map (probeRequest emailAddress password), rfl, hsent, ?_⟩
    intro req hreq
    obtain ⟨u, hu, rfl⟩ := List.mem_map.1 hreq
    refine ⟨rfl, hsub.subset hu, ?_, rfl, rfl⟩
    have hp := hprobed u hu
    simp only [probed, Bool.and_eq_true, bne_iff_ne, ne_eq] at hp
    exact hp.1

set_option maxRecDepth 100000 in
/-- The run of `Discover` under `exhaustedServer`, where the body of the first
candidate's response was read before the second candidate was probed: both
probes carry the same payload and header. -/
theorem Discover_probe_requests_witness :
    ∃ urls sent0 probes,
      discoveryUrls exhaustedServer (str "user@example.com") = some (urls, sent0) ∧
      [redirectProbe (str "example.com"),
        probeRequest (str "user@example.com") (str "secret")
          (str "https://example.com/autodiscover/autodiscover.xml"),
        probeRequest (str "user@example.com") (str "secret")
          (str "https://autodiscover.example.com/autodiscover/autodiscover.xml")]
        = sent0 ++ probes ∧
      ∀ req ∈ probes, req.Method = str "GET" ∧ req.URL ∈ urls ∧ req.URL ≠ str "" ∧
        req.Body = some (requestBody (str "user@example.com")).1 ∧
        req.Header = [(str "Authorization",
          str "Basic " ++ base64Encode (str "user@example.com" ++ str ":" ++ str "secret"))] :=
  (Discover_probe_requests exhaustedServer (str "user@example.com") (str "secret")
    (DiscoveredInfo.zero, some (.errorsNew "failed to fetch discovery information")) _
    (by decide)).1

theorem discoveryUrls_shape (w : Collaborators) (emailAddress : GoString)
    (urls : List GoString) (sent0 : List Request)
    (h : discoveryUrls w emailAddress = some (urls, sent0)) :
    ∃ d r, urls = [str "https://" ++ d ++ str "/autodiscover/autodiscover.xml",
      str "https://autodiscover." ++ d ++ str "/autodiscover/autodiscover.xml", r] := by
  unfold discoveryUrls at h
  cases hd : index (Split emailAddress 64) 1 with
  | none => rw [hd] at h; simp at h
  | some d =>
    rw [hd] at h
    cases hr : redirectedUrl w emailAddress with
    | none => rw [hr] at h; simp at h
    | some p =>
      obtain ⟨r, s⟩ := p
      rw [hr] at h
      simp only [Option.bind_eq_bind, Option.some_bind, Option.some.injEq, Prod.mk.injEq] at h
      exact ⟨d, r, h.1.symm⟩

theorem candidates_distinct (d : GoString) :
    str "https://" ++ d ++ str "/autodiscover/autodiscover.xml"
      ≠ str "https://autodiscover." ++ d ++ str "/autodiscover/autodiscover.xml" := by
  intro h
  have hlen := congrArg List.length h
  have e1 : (str "https://").length = 8 := by decide
  have e2 : (str "https://autodiscover.").length = 21 := by decide
  simp only [List.length_append, e1, e2] at hlen
  omega

/-- C16: in every run of `Discover` the third candidate is empty, the
authenticated probes go to a sublist of the first two candidates, in
candidate order, and the probed URLs are pairwise distinct: no URL is probed
more than once, whatever `Location` value a server sends. -/
theorem Discover_probes_distinct (w : Collaborators) (emailAddress password : GoString)
    (res : DiscoveredInfo × Option GoError) (sent : List Request)
    (h : Discover w emailAddress password = some (res, sent)) :
    ∃ (u1 u2 : GoString) (sent0 : List Request) (probedUrls : List GoString),
      discoveryUrls w emailAddress = some ([u1, u2, str ""], sent0) ∧
      sent = sent0 ++ probedUrls.map (probeRequest emailAddress password) ∧
      probedUrls.Sublist [u1, u2] ∧ probedUrls.Nodup := by
  cases hurls : discoveryUrls w emailAddress with
  | none =>
    unfold Discover at h
    rw [requestBody_eq emailAddress, hurls] at h
    simp at h
  | some p =>
    obtain ⟨urls, sent0⟩ := p
    obtain ⟨d, rfl⟩ := discoveryUrls_third_empty w emailAddress urls sent0 hurls
    rw [Discover_eq_loop w emailAddress password _ sent0 hurls] at h
    obtain ⟨ps, hsub, hprobed, hsent, _⟩ :=
      discoverLoop_sent w emailAddress password _ sent0 res sent h
    have hne : ∀ u ∈ ps, u ≠ str "" := by
      intro u hu
      have hp := hprobed u hu
      simp only [probed, Bool.and_eq_true, bne_iff_ne, ne_eq] at hp
      exact hp.1
    have hsub2 : ps.Sublist [str "https://" ++ d ++ str "/autodiscover/autodiscover.xml",
        str "https://autodiscover." ++ d ++ str "/autodiscover/autodiscover.xml"] := by
      rcases List.sublist_cons_iff.1 hsub with h1 | ⟨r1, rfl, h1⟩
      · rcases List.sublist_cons_iff.1 h1 with h2 | ⟨r2, rfl, h2⟩
        · rcases List.sublist_cons_iff.1 h2 with h3 | ⟨r3, rfl, h3⟩
          · rw [List.sublist_nil.1 h3]; exact List.nil_sublist _
          · exact absurd rfl (hne _ (List.mem_cons_self _ _))
        · rcases List.sublist_cons_iff.1 h2 with h3 | ⟨r3, rfl, h3⟩
          · rw [List.sublist_nil.1 h3]
            exact List.Sublist.cons _ (List.Sublist.cons₂ _ List.Sublist.slnil)
          · exact absurd rfl (hne _ (List.mem_cons_of_mem _ (List.mem_cons_self _ _)))
      · rcases List.sublist_cons_iff.1 h1 with h2 | ⟨r2, rfl, h2⟩
        · rcases List.sublist_cons_iff.1 h2 with h3 | ⟨r3, rfl, h3⟩
          · rw [List.sublist_nil.1 h3]
            exact List.Sublist.cons₂ _ (List.nil_sublist _)
          · exact absurd rfl (hne _ (List.mem_cons_of_mem _ (List.mem_cons_self _ _)))
        · rcases List.sublist_cons_iff.1 h2 with h3 | ⟨r3, rfl, h3⟩
          · rw [List.sublist_nil.1 h3]
          · exact absurd rfl
              (hne _ (List.mem_cons_of_mem _ (List.mem_cons_of_mem _ (List.mem_cons_self _ _))))
    refine ⟨_, _, sent0, ps, rfl, hsent, hsub2, List.Nodup.sublist hsub2 ?_⟩
    simp only [List.nodup_cons, List.mem_singleton, List.not_mem_nil, not_false_eq_true,
      List.nodup_nil, and_true]
    exact candidates_distinct d

set_option maxRecDepth 100000 in
/-- The run of `Discover` under `selfRedirectServer`, where the `Location`
value equals candidate 2: the client follows the redirect until the tenth
request is redirected again and returns an error, the third candidate is
empty, and candidates 1 and 2 are probed once each. -/
theorem Discover_probes_distinct_witness :
    selfRedirectServer.RoundTrip (redirectProbe (str "example.com"))
      = .ok ⟨302,
          [(str "Location",
            str "https://autodiscover.example.com/autodiscover/autodiscover.xml")],
          .ok (str "")⟩ ∧
    (selfRedirectServer.roundTrips (redirectProbe (str "example.com"))).length = 10 ∧
    selfRedirectServer.Do (redirectProbe (str "example.com")) = .error (.external 10) ∧
    ∃ (u1 u2 : GoString) (sent0 : List Request) (probedUrls : List GoString),
      discoveryUrls selfRedirectServer (str "user@example.com")
        = some ([u1, u2, str ""], sent0) ∧
      [redirectProbe (str "example.com"),
        probeRequest (str "user@example.com") (str "secret")
          (str "https://example.com/autodiscover/autodiscover.xml"),
        probeRequest (str "user@example.com") (str "secret")
          (str "https://autodiscover.example.com/autodiscover/autodiscover.xml")]
        = sent0 ++ probedUrls.map (probeRequest (str "user@example.com") (str "secret")) ∧
      probedUrls.Sublist [u1, u2] ∧ probedUrls.Nodup :=
  ⟨rfl, by decide, rfl,
    Discover_probes_distinct selfRedirectServer (str "user@example.com") (str "secret")
      (DiscoveredInfo.zero, some (.errorsNew "failed to fetch discovery information")) _
      (by decide)⟩

set_option maxRecDepth 100000 in
/-- C15 fails on the code: for a response document whose first `EXCH` record
and first `EXPR` record both have an empty `EwsUrl`, `parseResponse` returns
no error and a `DiscoveredInfo` whose `EWSUrl` is empty, and `Discover`
returns that result to its caller. -/
theorem parseResponse_returns_empty_url :
    parseResponse
        (fun _ => .ok ⟨[⟨str "EXCH", str "73C1840A", str ""⟩, ⟨str "EXPR", str "", str ""⟩]⟩)
        (str "<Autodiscover/>")
      = some ({ EWSUrl := str "", ExchangeVersion := str "Exchange2016" }, none) ∧
    Discover emptyUrlWorld (str "user@example.com") (str "secret")
      = some (({ EWSUrl := str "", ExchangeVersion := str "Exchange2016" }, none),
          [redirectProbe (str "example.com"),
           probeRequest (str "user@example.com") (str "secret")
             (str "https://example.com/autodiscover/autodiscover.xml")]) := by
  constructor
  · decide
  · decide

set_option maxRecDepth 100000 in
theorem utf8First_multi : ∀ b < 256, utf8First b < 0xF0 →
    0xC2 ≤ b ∧ 0x80 ≤ (acceptRanges (utf8First b >>> 4)).1 ∧ 2 ≤ utf8First b &&& 7 := by
  decide

set_option maxRecDepth 100000 in
theorem utf8First_single : ∀ b < 256, 0xF0 ≤ utf8First b → ¬ utf8First b % 2 = 1 → b < 128 := by
  decide

theorem mem_take_getD : ∀ (s : GoString) (w : Nat) (b : UInt8), b ∈ s.take w →
    ∃ i, i < w ∧ s.getD i 0 = b := by
  intro s
  induction s with
  | nil => intro w b h; simp at h
  | cons a t ih =>
    intro w b h
    cases w with
    | zero => simp at h
    | succ w =>
      rw [List.take_succ_cons] at h
      rcases List.mem_cons.1 h with h1 | h1
      · exact ⟨0, by omega, by simp [h1]⟩
      · obtain ⟨i, hi, hg⟩ := ih w b h1
        exact ⟨i + 1, by omega, by simpa using hg⟩

theorem escapeOf_fffd_one : escapeOf RuneError 1 = some (str "\uFFFD") := by decide

/-- What `DecodeRuneInString` returns on a non-empty string: width 1 with
`RuneError`, width 1 with an ASCII byte as rune, or a width of 2 to 4 whose
bytes are all at least `0x80`. -/
theorem decode_shape (b0 : UInt8) (t : GoString) :
    DecodeRuneInString (b0 :: t) = (RuneError, 1) ∨
    (DecodeRuneInString (b0 :: t) = (b0.toNat, 1) ∧ b0.toNat < 128) ∨
    (2 ≤ (DecodeRuneInString (b0 :: t)).2 ∧
      ∀ b ∈ (b0 :: t).take (DecodeRuneInString (b0 :: t)).2, 128 ≤ b.toNat) := by
  have hb0 := UInt8.toNat_lt b0
  have hm := utf8First_multi b0.toNat hb0
  have hs := utf8First_single b0.toNat hb0
  unfold DecodeRuneInString
  simp only []
  generalize utf8First b0.toNat = x at hm hs
  by_cases hx : x ≥ 0xF0
  · rw [if_pos hx]
    by_cases hodd : x % 2 = 1
    · rw [if_pos hodd]; exact Or.inl rfl
    · rw [if_neg hodd]; exact Or.inr (Or.inl ⟨rfl, hs hx hodd⟩)
  · rw [if_neg hx]
    obtain ⟨h0, hlo, hsz⟩ := hm (by omega)
    have key : ∀ w : Nat, (∀ i, i < w → 128 ≤ ((b0 :: t).getD i 0).toNat) →
        ∀ b ∈ (b0 :: t).take w, 128 ≤ b.toNat := by
      intro w hw b hb
      obtain ⟨i, hi, hg⟩ := mem_take_getD (b0 :: t) w b hb
      rw [← hg]
      exact hw i hi
    have g0 : 128 ≤ ((b0 :: t).getD 0 0).toNat := by
      simp only [List.getD_cons_zero]; omega
    split
    · exact Or.inl rfl
    · split
      · exact Or.inl rfl
      · rename_i h1
        have g1 : 128 ≤ ((b0 :: t).getD 1 0).toNat := by omega
        split
        · refine Or.inr (Or.inr ⟨Nat.le_refl _, key 2 ?_⟩)
          intro i hi
          rcases i with _ | _ | i
          · exact g0
          · exact g1
          · omega
        · split
          · exact Or.inl rfl
          · rename_i h2
            have g2 : 128 ≤ ((b0 :: t).getD 2 0).toNat := by omega
            split
            · refine Or.inr (Or.inr ⟨by omega, key 3 ?_⟩)
              intro i hi
              rcases i with _ | _ | _ | i
              · exact g0
              · exact g1
              · exact g2
              · omega
            · split
              · exact Or.inl rfl
              · rename_i h3
                have g3 : 128 ≤ ((b0 :: t).getD 3 0).toNat := by omega
                refine Or.inr (Or.inr ⟨by omega, key 4 ?_⟩)
                intro i hi
                rcases i with _ | _ | _ | _ | i
                · exact g0
                · exact g1
                · exact g2
                · exact g3
                · omega

theorem escapeOf_some_safe (r w : Nat) (esc : GoString) (h : escapeOf r w = some esc) :
    ∀ b ∈ esc, b ≠ 60 ∧ b ≠ 62 := by
  unfold escapeOf at h
  split_ifs at h <;> cases h <;> decide

theorem escapeOf_none_angle (r w : Nat) (h : escapeOf r w = none) : r ≠ 60 ∧ r ≠ 62 := by
  constructor <;> intro e <;> subst e <;> simp [escapeOf] at h

theorem escapeLoop_no_angle : ∀ (fuel : Nat) (s : GoString),
    ∀ b ∈ escapeLoop fuel s, b ≠ 60 ∧ b ≠ 62 := by
  intro fuel
  induction fuel with
  | zero => intro s b hb; simp [escapeLoop] at hb
  | succ fuel ih =>
    intro s b hb
    rw [escapeLoop] at hb
    by_cases hs : s = []
    · rw [if_pos hs] at hb; cases hb
    · rw [if_neg hs] at hb
      obtain ⟨b0, t, rfl⟩ : ∃ b0 t, s = b0 :: t := by
        cases s with
        | nil => exact absurd rfl hs
        | cons b0 t => exact ⟨b0, t, rfl⟩
      have hshape := decode_shape b0 t
      rcases hd : DecodeRuneInString (b0 :: t) with ⟨r, w⟩
      rw [hd] at hb hshape
      simp only [] at hb
      rcases List.mem_append.1 hb with hp | hr
      · cases he : escapeOf r w with
        | some esc =>
          rw [he] at hp
          exact escapeOf_some_safe r w esc he b hp
        | none =>
          rw [he] at hp
          simp only [] at hp
          rcases hshape with h1 | ⟨h1, hlt⟩ | ⟨_, h1⟩
          · simp only [Prod.mk.injEq] at h1
            rw [h1.1, h1.2, escapeOf_fffd_one] at he
            cases he
          · simp only [Prod.mk.injEq] at h1
            obtain ⟨rfl, rfl⟩ := h1
            have hb0 : b = b0 := by simpa using hp
            have := escapeOf_none_angle _ _ he
            rw [hb0]
            constructor <;> intro e <;> rw [e] at this
            · exact this.1 rfl
            · exact this.2 rfl
          · have := h1 b hp
            constructor <;> intro e <;> rw [e] at this <;> revert this <;> decide
      · exact ih _ b hr

theorem xmlEscapeByte_high (b : UInt8) (h : 128 ≤ b.toNat) : xmlEscapeByte b = [b] := by
  unfold xmlEscapeByte
  simp only [show ¬ b.toNat = 38 by omega, show ¬ b.toNat = 60 by omega,
    show ¬ b.toNat = 62 by omega, show ¬ b.toNat = 34 by omega, show ¬ b.toNat = 39 by omega,
    show ¬ b.toNat = 9 by omega, show ¬ b.toNat = 10 by omega, show ¬ b.toNat = 13 by omega,
    if_false]

theorem xmlEscape8_high : ∀ l : GoString, (∀ b ∈ l, 128 ≤ b.toNat) → xmlEscape8 l = l := by
  intro l
  induction l with
  | nil => intro _; rfl
  | cons b t ih =>
    intro h
    have hb := xmlEscapeByte_high b (h b (List.mem_cons_self _ _))
    have ht := ih (fun x hx => h x (List.mem_cons_of_mem _ hx))
    unfold xmlEscape8 at ht ⊢
    rw [List.flatMap_cons, hb, ht]
    rfl

theorem utf8EncodeChar_high (c : Char) (h : 127 < c.toNat) :
    ∀ b ∈ String.utf8EncodeChar c, 128 ≤ b.toNat := by
  have hmap := utf8EncodeChar_toNat c
  have hv : ¬ c.val.toNat ≤ 127 := by
    have : c.toNat = c.val.toNat := rfl
    omega
  rw [if_neg hv] at hmap
  intro b hb
  have hmem : b.toNat ∈ (String.utf8EncodeChar c).map UInt8.toNat := List.mem_map_of_mem _ hb
  rw [hmap] at hmem
  split at hmem
  · simp only [List.mem_cons, List.mem_singleton, List.not_mem_nil, or_false] at hmem
    omega
  · split at hmem
    · simp only [List.mem_cons, List.mem_singleton, List.not_mem_nil, or_false] at hmem
      omega
    · simp only [List.mem_cons, List.mem_singleton, List.not_mem_nil, or_false] at hmem
      omega

theorem utf8EncodeChar_ascii (c : Char) (h : c.toNat ≤ 127) :
    ∃ b : UInt8, String.utf8EncodeChar c = [b] ∧ b.toNat = c.toNat := by
  have hmap := utf8EncodeChar_toNat c
  have hv : c.val.toNat ≤ 127 := h
  rw [if_pos hv] at hmap
  simp only [List.map_eq_cons_iff, List.map_eq_nil_iff] at hmap
  obtain ⟨b, l, hl, hb, rfl⟩ := hmap
  exact ⟨b, hl, hb⟩

theorem escapeOf_ascii (r : Nat) (b : UInt8) (hb : b.toNat = r) (hr : r ≤ 127)
    (hc : isInCharacterRange r = true) :
    (match escapeOf r 1 with
      | some esc => esc
      | none => [b]) = xmlEscapeByte b := by
  unfold escapeOf xmlEscapeByte
  rw [hb]
  by_cases h34 : r = 34
  · subst h34; rfl
  by_cases h39 : r = 39
  · subst h39; rfl
  by_cases h38 : r = 38
  · subst h38; rfl
  by_cases h60 : r = 60
  · subst h60; rfl
  by_cases h62 : r = 62
  · subst h62; rfl
  by_cases h9 : r = 9
  · subst h9; rfl
  by_cases h10 : r = 10
  · subst h10; rfl
  by_cases h13 : r = 13
  · subst h13; rfl
  have hfffd : ¬ r = 65533 := by omega
  simp only [h34, h39, h38, h60, h62, h9, h10, h13, hc, hfffd, if_false, Bool.not_true,
    Bool.false_eq_true, false_and, or_self]

theorem plain_of_high (c : Char) (h : 127 < c.toNat) (hc : isInCharacterRange c.toNat = true) :
    plainXmlChar c := by
  unfold isInCharacterRange at hc
  simp only [Bool.or_eq_true, Bool.and_eq_true, beq_iff_eq, decide_eq_true_eq] at hc
  unfold plainXmlChar
  omega

theorem escapePiece (c : Char) (hc : isInCharacterRange c.toNat = true) :
    (match escapeOf c.toNat (String.utf8EncodeChar c).length with
      | some esc => esc
      | none => String.utf8EncodeChar c) = xmlEscape8 (String.utf8EncodeChar c) := by
  by_cases h : c.toNat ≤ 127
  · obtain ⟨b, hl, hb⟩ := utf8EncodeChar_ascii c h
    rw [hl]
    have := escapeOf_ascii c.toNat b hb h hc
    simp only [List.length_singleton]
    rw [this]
    simp [xmlEscape8]
  · have hw := (decode_encode c []).2.1
    rw [escapeOf_plain c _ (plain_of_high c (by omega) hc) hw]
    exact (xmlEscape8_high _ (utf8EncodeChar_high c (by omega))).symm

theorem escapeLoop_range : ∀ (cs : List Char),
    (∀ c ∈ cs, isInCharacterRange c.toNat = true) →
    ∀ fuel, (cs.flatMap String.utf8EncodeChar).length ≤ fuel →
      escapeLoop fuel (cs.flatMap String.utf8EncodeChar)
        = xmlEscape8 (cs.flatMap String.utf8EncodeChar) := by
  intro cs
  induction cs with
  | nil =>
    intro _ fuel _
    cases fuel <;> simp [escapeLoop, xmlEscape8]
  | cons c cs ih =>
    intro hall fuel hfuel
    obtain ⟨hdec, _, hpos⟩ := decode_encode c (cs.flatMap String.utf8EncodeChar)
    rw [List.flatMap_cons] at hfuel ⊢
    rw [List.length_append] at hfuel
    obtain ⟨f, rfl⟩ : ∃ f, fuel = f + 1 := ⟨fuel - 1, by omega⟩
    have hne : String.utf8EncodeChar c ++ cs.flatMap String.utf8EncodeChar ≠ [] := by
      intro h0
      have := congrArg List.length h0
      rw [List.length_append, List.length_nil] at this
      omega
    rw [escapeLoop, if_neg hne, hdec]
    simp only [List.take_left', List.drop_left']
    rw [ih (fun c hc => hall c (List.mem_cons_of_mem _ hc)) f (by omega)]
    have hp := escapePiece c (hall c (List.mem_cons_self _ _))
    have hx : xmlEscape8 (String.utf8EncodeChar c ++ cs.flatMap String.utf8EncodeChar)
        = xmlEscape8 (String.utf8EncodeChar c)
          ++ xmlEscape8 (cs.flatMap String.utf8EncodeChar) := by
      simp [xmlEscape8]
    rw [hx]
    exact congrArg (fun piece => piece ++ xmlEscape8 (cs.flatMap String.utf8EncodeChar)) hp

theorem EscapeString_range (s : String) (h : ∀ c ∈ s.data, isInCharacterRange c.toNat = true) :
    EscapeString (str s) = xmlEscape8 (str s) := by
  unfold EscapeString
  rw [str_eq]
  exact escapeLoop_range s.data h _ (Nat.le_refl _)

set_option maxRecDepth 100000 in
/-- C19 as stated fails: the address `a&b`, the byte `0xFF`, `@c.d` is
written with `&amp;` for `&` and with U+FFFD in place of the byte `0xFF`,
which is not the address with the eight replacements applied. -/
theorem requestBody_invalid_byte_replaced :
    requestBody (str "a&b" ++ [255] ++ str "@c.d")
      = (requestHead ++ str "a&amp;b\uFFFD@c.d" ++ requestTail, none) ∧
    requestBody (str "a&b" ++ [255] ++ str "@c.d")
      ≠ (requestHead ++ xmlEscape8 (str "a&b" ++ [255] ++ str "@c.d") ++ requestTail, none) := by
  have he : EscapeString (str "a&b" ++ [255] ++ str "@c.d") = str "a&amp;b\uFFFD@c.d" := by
    decide
  rw [requestBody_eq, he]
  refine ⟨rfl, ?_⟩
  decide

/-- C19 (amended): for every mailbox address `requestBody` returns no error
and the fixed head up to `<EMailAddress>`, the escaped address, and the fixed
tail from `</EMailAddress>`; the escaped address holds no `<` and no `>`;
and when the address is well-formed UTF-8 text whose characters all lie in
the XML character range (tab, newline, carriage return, U+0020-U+D7FF,
U+E000-U+FFFD, U+10000-U+10FFFF), the escaped address is the address with
exactly the eight replacements applied (`&amp;`, `&lt;`, `&gt;`, `&#34;`,
`&#39;`, `&#x9;`, `&#xA;`, `&#xD;`). -/
theorem requestBody_escaped (address : GoString) :
    requestBody address = (requestHead ++ EscapeString address ++ requestTail, none) ∧
    (∀ b ∈ EscapeString address, b ≠ 60 ∧ b ≠ 62) ∧
    (∀ s : String, address = str s → (∀ c ∈ s.data, isInCharacterRange c.toNat = true) →
      EscapeString address = xmlEscape8 address) := by
  refine ⟨requestBody_eq address, escapeLoop_no_angle _ address, ?_⟩
  intro s hs hc
  rw [hs]
  exact EscapeString_range s hc

set_option maxRecDepth 100000 in
/-- The address `<a&b>`, tab, `@x.y`: three of the special characters and the
tab are replaced, the rest is copied. -/
theorem requestBody_escaped_witness :
    requestBody (str "<a&b>\t@x.y")
      = (requestHead ++ str "&lt;a&amp;b&gt;&#x9;@x.y" ++ requestTail, none) := by
  have h := requestBody_escaped (str "<a&b>\t@x.y")
  have hx : xmlEscape8 (str "<a&b>\t@x.y") = str "&lt;a&amp;b&gt;&#x9;@x.y" := by decide
  rw [h.1, h.2.2 "<a&b>\t@x.y" rfl (by decide), hx]

end Autodiscover
